import Mathlib

/-!
# Verification of the decision-making agent's control loop

A shallow embedding of the agent's control loop (`src/agent/nodes.py`,
`src/agent/graph.py`) and of the guard of the search tool
(`src/tools/search_tool.py`), together with theorems settling the claims
about planning, tool selection repair, deduplication, pipeline
enforcement, step-cursor bookkeeping and loop termination.

Modelling conventions:
* Python strings are Lean `String`s; all character-level operations are
  implemented on `List Char` so that every definition reduces in the
  kernel.  The strings handled by this program are ASCII, so ASCII
  lowercasing and the ASCII word-character class faithfully model
  Python's behaviour on the program's data.
* JSON/Python values are modelled by `JValue`; Python `float`s only
  arise in this program from parsing short decimal literals (for
  example `float("4.0")`), which are exact, so they are modelled as
  rationals.
* External collaborators (the LLM "reasoning oracle", `json.loads`,
  the three dataset tools, the pandas dataset loader) are opaque
  parameters, exactly as the specification designates them external.
-/

/-! ## Characters and strings (Python semantics) -/

/-- Code-point comparison of characters (Python compares strings by
code point). -/
def chLt (a b : Char) : Bool := a.toNat < b.toNat

/-- Lexicographic strict order on character lists, as Python orders
strings. -/
def lexLt : List Char → List Char → Bool
  | [], [] => false
  | [], _ :: _ => true
  | _ :: _, [] => false
  | a :: as, b :: bs =>
    if chLt a b then true else if chLt b a then false else lexLt as bs

/-- Python `a < b` on strings. -/
def strLtB (a b : String) : Bool := lexLt a.toList b.toList

/-- Python `a <= b` on strings. -/
def strLeB (a b : String) : Bool := !(strLtB b a)

/-- ASCII lowercasing of one character; Python's `str.lower` restricted
to the ASCII range that the program's data uses. -/
def chLower (c : Char) : Char :=
  if 65 ≤ c.toNat ∧ c.toNat ≤ 90 then Char.ofNat (c.toNat + 32) else c

/-- Python `str.lower` (ASCII). -/
def pyLower (s : String) : String := ⟨s.toList.map chLower⟩

/-- Python's whitespace class `\s` (ASCII part). -/
def wsChar (c : Char) : Bool :=
  c = ' ' ∨ c = '\t' ∨ c = '\n' ∨ c = '\x0d' ∨ c = '\x0c' ∨ c = '\x0b'

/-- Python's word-character class `\w` (ASCII part), used by `\b`. -/
def wordChar (c : Char) : Bool :=
  (97 ≤ c.toNat ∧ c.toNat ≤ 122) ∨ (65 ≤ c.toNat ∧ c.toNat ≤ 90) ∨
    (48 ≤ c.toNat ∧ c.toNat ≤ 57) ∨ c = '_'

/-- ASCII digit. -/
def digitChar (c : Char) : Bool := 48 ≤ c.toNat ∧ c.toNat ≤ 57

/-- ASCII letter, the class `[A-Za-z]`. -/
def alphaChar (c : Char) : Bool :=
  (97 ≤ c.toNat ∧ c.toNat ≤ 122) ∨ (65 ≤ c.toNat ∧ c.toNat ≤ 90)

/-- Strip characters satisfying `t` from both ends (Python
`str.strip`). -/
def stripWhile (t : Char → Bool) (l : List Char) : List Char :=
  ((l.dropWhile t).reverse.dropWhile t).reverse

/-- Python `str.strip()` (whitespace). -/
def pyStrip (s : String) : String := ⟨stripWhile wsChar s.toList⟩

/-- Python `str.strip(chars)`. -/
def pyStripChars (cs : List Char) (s : String) : String :=
  ⟨stripWhile (fun c => cs.contains c) s.toList⟩

/-- Contiguous-sublist test. -/
def isSubList (pat : List Char) : List Char → Bool
  | [] => pat.isEmpty
  | c :: rest => pat.isPrefixOf (c :: rest) || isSubList pat rest

/-- Substring test, Python's `needle in haystack` on strings. -/
def strContains (hay pat : String) : Bool :=
  isSubList pat.toList hay.toList

/-- Split a character list at every occurrence of `sep`. -/
def splitAtChar (sep : Char) : List Char → List (List Char)
  | [] => [[]]
  | c :: rest =>
    let r := splitAtChar sep rest
    if c = sep then [] :: r
    else
      match r with
      | [] => [[c]]
      | h :: t => (c :: h) :: t

/-- Python `s.split(",")`. -/
def pySplitComma (s : String) : List String :=
  (splitAtChar ',' s.toList).map fun l => ⟨l⟩

/-- Python `s.split("\n")`. -/
def pySplitNl (s : String) : List String :=
  (splitAtChar '\n' s.toList).map fun l => ⟨l⟩

/-- Whitespace-run splitting used by Python's argumentless
`str.split()`: maximal non-whitespace runs. -/
def wsWords : List Char → List (List Char)
  | [] => []
  | c :: rest =>
    if wsChar c then wsWords rest
    else
      match wsWords rest with
      | [] => [[c]]
      | h :: t =>
        match rest with
        | [] => [[c]]
        | d :: _ => if wsChar d then [c] :: h :: t else (c :: h) :: t

/-- Python `len(s.split())`: the number of whitespace-separated words. -/
def pyWordCount (s : String) : Nat := (wsWords s.toList).length

/-- Leftmost non-overlapping replacement of `pat` by `rep`, Python's
`str.replace`. `pat` is nonempty at every use site. -/
def replaceAll (pat rep : List Char) : List Char → List Char
  | [] => []
  | c :: rest =>
    if pat ≠ [] ∧ pat.isPrefixOf (c :: rest) then
      rep ++ replaceAll pat rep ((c :: rest).drop pat.length)
    else c :: replaceAll pat rep rest
termination_by l => l.length
decreasing_by
  · simp only [List.length_drop, List.length_cons]
    rename_i h
    have hlen : 0 < pat.length := by
      cases pat with
      | nil => exact absurd rfl h.1
      | cons a b => simp
    omega
  · simp

/-- Python `str.replace` on strings. -/
def pyReplace (s pat rep : String) : String :=
  ⟨replaceAll pat.toList rep.toList s.toList⟩

/-- String concatenation of a list with separator, Python
`sep.join`. -/
def joinComma (l : List String) : String := String.intercalate ", " l

/-! ## Python/JSON values -/

/-- Python values flowing through the executor: JSON scalars and
containers.  Python `float`s here only ever come from exact short
decimal literals, modelled as rationals. -/
inductive JValue where
  | null
  | bool (b : Bool)
  | int (n : Int)
  | float (q : Rat)
  | str (s : String)
  | arr (elems : List JValue)
  | obj (fields : List (String × JValue))

mutual
/-- Boolean structural equality on `JValue` (Python `==` for the
unique-key mappings this program builds). -/
def jeqB : JValue → JValue → Bool
  | .null, .null => true
  | .bool a, .bool b => a = b
  | .int a, .int b => a = b
  | .float a, .float b => a = b
  | .str a, .str b => a = b
  | .arr a, .arr b => jeqListB a b
  | .obj a, .obj b => jeqKVB a b
  | _, _ => false

def jeqListB : List JValue → List JValue → Bool
  | [], [] => true
  | a :: as, b :: bs => jeqB a b && jeqListB as bs
  | _, _ => false

def jeqKVB : List (String × JValue) → List (String × JValue) → Bool
  | [], [] => true
  | (k, a) :: as, (l, b) :: bs => k = l && jeqB a b && jeqKVB as bs
  | _, _ => false
end

mutual
theorem jeqB_iff : ∀ a b : JValue, jeqB a b = true ↔ a = b
  | .null, .null => by simp [jeqB]
  | .bool _, .bool _ => by simp [jeqB]
  | .int _, .int _ => by simp [jeqB]
  | .float _, .float _ => by simp [jeqB]
  | .str _, .str _ => by simp [jeqB]
  | .arr a, .arr b => by simp [jeqB, jeqListB_iff a b]
  | .obj a, .obj b => by simp [jeqB, jeqKVB_iff a b]
  | .null, .bool _ | .null, .int _ | .null, .float _ | .null, .str _
  | .null, .arr _ | .null, .obj _ => by simp [jeqB]
  | .bool _, .null | .bool _, .int _ | .bool _, .float _ | .bool _, .str _
  | .bool _, .arr _ | .bool _, .obj _ => by simp [jeqB]
  | .int _, .null | .int _, .bool _ | .int _, .float _ | .int _, .str _
  | .int _, .arr _ | .int _, .obj _ => by simp [jeqB]
  | .float _, .null | .float _, .bool _ | .float _, .int _ | .float _, .str _
  | .float _, .arr _ | .float _, .obj _ => by simp [jeqB]
  | .str _, .null | .str _, .bool _ | .str _, .int _ | .str _, .float _
  | .str _, .arr _ | .str _, .obj _ => by simp [jeqB]
  | .arr _, .null | .arr _, .bool _ | .arr _, .int _ | .arr _, .float _
  | .arr _, .str _ | .arr _, .obj _ => by simp [jeqB]
  | .obj _, .null | .obj _, .bool _ | .obj _, .int _ | .obj _, .float _
  | .obj _, .str _ | .obj _, .arr _ => by simp [jeqB]

theorem jeqListB_iff : ∀ a b : List JValue, jeqListB a b = true ↔ a = b
  | [], [] => by simp [jeqListB]
  | a :: as, b :: bs => by simp [jeqListB, jeqB_iff a b, jeqListB_iff as bs]
  | [], _ :: _ => by simp [jeqListB]
  | _ :: _, [] => by simp [jeqListB]

theorem jeqKVB_iff : ∀ a b : List (String × JValue), jeqKVB a b = true ↔ a = b
  | [], [] => by simp [jeqKVB]
  | (k, a) :: as, (l, b) :: bs => by
      simp [jeqKVB, jeqB_iff a b, jeqKVB_iff as bs, and_assoc]
  | [], _ :: _ => by simp [jeqKVB]
  | _ :: _, [] => by simp [jeqKVB]
end

instance : DecidableEq JValue := fun a b =>
  decidable_of_iff (jeqB a b = true) (jeqB_iff a b)

/-- Python truthiness (`bool(v)`): `None`, `False`, zero, the empty
string and empty containers are falsy. -/
def pyTruthy : JValue → Bool
  | .null => false
  | .bool b => b
  | .int n => n ≠ 0
  | .float q => q ≠ 0
  | .str s => s ≠ ""
  | .arr l => !l.isEmpty
  | .obj l => !l.isEmpty

/-- Python `repr` of a string: quotes with `'`, or with `"` when the
string contains `'` but no `"`.  Escape sequences for exotic characters
are not modelled (the program's strings are plain). -/
def strRepr (s : String) : String :=
  if s.contains '\x27' && !(s.contains '"') then "\"" ++ s ++ "\""
  else "\x27" ++ s ++ "\x27"

/-- Fractional digits of `num/den` by decimal long division (the
rationals reaching this function are finite decimals, so the fuel is
never exhausted on program data). -/
def floatStrFrac (num den fuel : Nat) : String :=
  match fuel with
  | 0 => ""
  | fuel + 1 =>
    if num = 0 then ""
    else toString (num * 10 / den) ++ floatStrFrac (num * 10 % den) den fuel

/-- Python `str` of a float, for the exact finite decimals this program
produces (`str(4.0) = "4.0"`, `str(3.5) = "3.5"`). -/
def floatStr (q : Rat) : String :=
  let sgn := if q < 0 then "-" else ""
  let n := q.num.natAbs
  let d := q.den
  if n % d = 0 then sgn ++ toString (n / d) ++ ".0"
  else sgn ++ toString (n / d) ++ "." ++ floatStrFrac (n % d) d 20

mutual
/-- Python `repr` of a value: what `str` applies to the elements when a
container is converted to text. -/
def pyRepr : JValue → String
  | .null => "None"
  | .bool true => "True"
  | .bool false => "False"
  | .int n => toString n
  | .float q => floatStr q
  | .str s => strRepr s
  | .arr l => "[" ++ joinComma (pyReprList l) ++ "]"
  | .obj kvs => "\x7b" ++ joinComma (pyReprKVs kvs) ++ "\x7d"
termination_by structural v => v

def pyReprList : List JValue → List String
  | [] => []
  | v :: vs => pyRepr v :: pyReprList vs
termination_by structural l => l

def pyReprKVs : List (String × JValue) → List String
  | [] => []
  | (k, v) :: ps => (strRepr k ++ ": " ++ pyRepr v) :: pyReprKVs ps
termination_by structural l => l
end

/-- Python `str(v)`: like `repr` except that strings are returned
unquoted.  This is the sort key `lambda x: str(x)` of `_norm`. -/
def pyStr : JValue → String
  | .str s => s
  | v => pyRepr v

/-! ## The deduplicator's canonicalization `_norm` -/

/-- The element order used when `_norm` sorts a list:
`sorted(normed, key=lambda x: str(x))`. -/
def jle (a b : JValue) : Prop := strLeB (pyStr a) (pyStr b) = true

instance : DecidableRel jle := fun _ _ =>
  inferInstanceAs (Decidable (_ = true))

/-- The key order used when `_norm` rebuilds a mapping over
`sorted(val.keys())`. -/
def kvle (p q : String × JValue) : Prop := strLeB p.1 q.1 = true

instance : DecidableRel kvle := fun _ _ =>
  inferInstanceAs (Decidable (_ = true))

mutual
/-- `_norm` from `_find_duplicate_result` (nodes.py): mappings are
rebuilt with sorted keys, lists are normalized elementwise and then
sorted by the Python string form of the normalized elements.  Python's
`sorted` is a stable sort, and any two stable sorts under the same key
agree, so insertion sort models it exactly. -/
def pynorm : JValue → JValue
  | .null => .null
  | .bool b => .bool b
  | .int n => .int n
  | .float q => .float q
  | .str s => .str s
  | .arr l => .arr (List.insertionSort jle (pynormList l))
  | .obj kvs => .obj (List.insertionSort kvle (pynormKVs kvs))
termination_by structural v => v

def pynormList : List JValue → List JValue
  | [] => []
  | v :: vs => pynorm v :: pynormList vs
termination_by structural l => l

def pynormKVs : List (String × JValue) → List (String × JValue)
  | [] => []
  | (k, v) :: ps => (k, pynorm v) :: pynormKVs ps
termination_by structural l => l
end

/-! ## Python dictionaries as ordered association lists -/

/-- Parameter mappings: insertion-ordered, unique-key association
lists, as Python dicts built from parsed JSON and item assignment. -/
abbrev PDict := List (String × JValue)

/-- Python `d.get(k)` / `d[k]` on a unique-key dict. -/
def dlookup : PDict → String → Option JValue
  | [], _ => none
  | (k', v) :: rest, k => if k' = k then some v else dlookup rest k

/-- Python `k in d`. -/
def hasKey (d : PDict) (k : String) : Bool := (dlookup d k).isSome

/-- Python `d[k] = v`: replace in place, or append as the newest key. -/
def dset : PDict → String → JValue → PDict
  | [], k, v => [(k, v)]
  | (k', v') :: rest, k, v =>
    if k' = k then (k, v) :: rest else (k', v') :: dset rest k v

/-- Python `d.pop(k, None)`. -/
def dpop (d : PDict) (k : String) : PDict := d.filter fun p => p.1 ≠ k

/-! ## A little backtracking regex engine

The repair layer uses seven `re` patterns.  Each is transcribed
node-for-node into combinators over a backtracking matcher whose list
of outcomes is ordered exactly by Python's backtracking priority:
alternation prefers the left branch, greedy quantifiers prefer longer
matches, lazy quantifiers prefer shorter ones, and `re.search` takes
the first start position (leftmost) at which any outcome exists. -/

/-- Matcher state: the previous character (for `\b`) and the remaining
input. -/
structure RxSt where
  prev : Option Char
  rest : List Char

/-- Captured groups: group number paired with the captured text. -/
abbrev Caps := List (Nat × List Char)

/-- A matcher returns all ways to match a prefix of the input, in
backtracking-priority order. -/
abbrev RxM := RxSt → List (RxSt × Caps)

/-- The empty pattern. -/
def rxEps : RxM := fun i => [(i, [])]

/-- Sequencing: priorities multiply lexicographically, as in a
backtracking engine. -/
def rxSeq (p q : RxM) : RxM := fun i =>
  (p i).flatMap fun r => (q r.1).map fun r2 => (r2.1, r.2 ++ r2.2)

/-- Alternation `a|b`: the left branch is preferred. -/
def rxAlt (p q : RxM) : RxM := fun i => p i ++ q i

/-- A character class (one character satisfying a predicate). -/
def rxCls (t : Char → Bool) : RxM := fun i =>
  match i.rest with
  | [] => []
  | c :: r => if t c then [({ prev := some c, rest := r }, [])] else []

/-- A literal character, optionally case-insensitive. -/
def rxCh (ci : Bool) (d : Char) : RxM :=
  rxCls fun c => if ci then chLower c = chLower d else c = d

/-- A literal string. -/
def rxLit (ci : Bool) : List Char → RxM
  | [] => rxEps
  | d :: ds => rxSeq (rxCh ci d) (rxLit ci ds)

/-- `\b`: a word boundary between the previous character and the next. -/
def rxWordB : RxM := fun i =>
  let before := match i.prev with | none => false | some c => wordChar c
  let after := match i.rest with | [] => false | c :: _ => wordChar c
  if before ≠ after then [(i, [])] else []

/-- Greedy `?`. -/
def rxOpt (p : RxM) : RxM := rxAlt p rxEps

/-- Greedy `*` (fuel-bounded; every starred pattern here consumes at
least one character, so fuel `length + 1` is never exhausted). -/
def rxStarG (p : RxM) : Nat → RxM
  | 0 => rxEps
  | n + 1 => fun i =>
    ((p i).flatMap fun r =>
      ((rxStarG p n) r.1).map fun r2 => (r2.1, r.2 ++ r2.2)) ++ [(i, [])]

/-- Greedy `+`. -/
def rxPlusG (p : RxM) (fuel : Nat) : RxM := rxSeq p (rxStarG p fuel)

/-- Lazy `+?`: shorter matches first. -/
def rxPlusLazy (p : RxM) : Nat → RxM
  | 0 => fun _ => []
  | n + 1 => fun i =>
    (p i).flatMap fun r =>
      (r.1, r.2) :: ((rxPlusLazy p n) r.1).map fun r2 => (r2.1, r.2 ++ r2.2)

/-- Greedy bounded repetition `{lo,hi}`: more repetitions first. -/
def rxRepG (p : RxM) (lo : Nat) : Nat → RxM
  | 0 => if lo = 0 then rxEps else fun _ => []
  | h + 1 => fun i =>
    ((p i).flatMap fun r =>
      ((rxRepG p (lo - 1) h) r.1).map fun r2 => (r2.1, r.2 ++ r2.2)) ++
      (if lo = 0 then [(i, [])] else [])

/-- A capturing group: records the consumed text under `n`. -/
def rxGroup (n : Nat) (p : RxM) : RxM := fun i =>
  (p i).map fun r =>
    (r.1, (n, i.rest.take (i.rest.length - r.1.rest.length)) :: r.2)

/-- Try the pattern at one position; the first outcome is the match
Python commits to. -/
def rxRun (p : RxM) (prev : Option Char) (s : List Char) :
    Option (List Char × Caps) :=
  match p { prev := prev, rest := s } with
  | [] => none
  | r :: _ => some (s.take (s.length - r.1.rest.length), r.2)

/-- `re.search`: try every start position from the left. -/
def rxSearchFrom (p : RxM) (prev : Option Char) :
    List Char → Option (List Char × Caps)
  | [] => rxRun p prev []
  | c :: r =>
    match rxRun p prev (c :: r) with
    | some m => some m
    | none => rxSearchFrom p (some c) r

/-- `re.search(pattern, s)`: the matched text and captures, if any. -/
def rxSearch (p : RxM) (s : String) : Option (List Char × Caps) :=
  rxSearchFrom p none s.toList

/-- `m.group(n)`. -/
def capGet (c : Caps) (n : Nat) : Option (List Char) :=
  (c.find? fun p => p.1 = n).map Prod.snd

/-! ## The seven `re` patterns of nodes.py, transcribed -/

/-- `(below|under|less than)\s*([0-9](?:\.[0-9])?)` with
`re.IGNORECASE` (the `max_rating` inference). -/
def belowPat (fuel : Nat) : RxM :=
  rxSeq (rxGroup 1 (rxAlt (rxLit true "below".toList)
      (rxAlt (rxLit true "under".toList) (rxLit true "less than".toList))))
    (rxSeq (rxStarG (rxCls wsChar) fuel)
      (rxGroup 2 (rxSeq (rxCls digitChar)
        (rxOpt (rxSeq (rxCh false '.') (rxCls digitChar))))))

/-- `(above|over|greater than)\s*([0-9](?:\.[0-9])?)` with
`re.IGNORECASE` (the `min_rating` inference). -/
def abovePat (fuel : Nat) : RxM :=
  rxSeq (rxGroup 1 (rxAlt (rxLit true "above".toList)
      (rxAlt (rxLit true "over".toList) (rxLit true "greater than".toList))))
    (rxSeq (rxStarG (rxCls wsChar) fuel)
      (rxGroup 2 (rxSeq (rxCls digitChar)
        (rxOpt (rxSeq (rxCh false '.') (rxCls digitChar))))))

/-- `\btop\s+(\d{1,3})\b` with `re.IGNORECASE`. -/
def topNPat (fuel : Nat) : RxM :=
  rxSeq rxWordB (rxSeq (rxLit true "top".toList)
    (rxSeq (rxPlusG (rxCls wsChar) fuel)
      (rxSeq (rxGroup 1 (rxRepG (rxCls digitChar) 1 3)) rxWordB)))

/-- `\b(\d{1,3})\s+(?:products|items)\b` with `re.IGNORECASE`. -/
def nItemsPat (fuel : Nat) : RxM :=
  rxSeq rxWordB (rxSeq (rxGroup 1 (rxRepG (rxCls digitChar) 1 3))
    (rxSeq (rxPlusG (rxCls wsChar) fuel)
      (rxSeq (rxAlt (rxLit true "products".toList) (rxLit true "items".toList))
        rxWordB)))

/-- `\b(?:in|within)\s+(?:the\s+)?(.+?)\s+categor(?:y|ies)\b` with
`re.IGNORECASE` (`.` excludes newlines: `re.DOTALL` is not set). -/
def catPhrasePat (fuel : Nat) : RxM :=
  rxSeq rxWordB (rxSeq (rxAlt (rxLit true "in".toList) (rxLit true "within".toList))
    (rxSeq (rxPlusG (rxCls wsChar) fuel)
      (rxSeq (rxOpt (rxSeq (rxLit true "the".toList) (rxPlusG (rxCls wsChar) fuel)))
        (rxSeq (rxGroup 1 (rxPlusLazy (rxCls fun c => c ≠ '\n') fuel))
          (rxSeq (rxPlusG (rxCls wsChar) fuel)
            (rxSeq (rxLit true "categor".toList)
              (rxSeq (rxAlt (rxLit true "y".toList) (rxLit true "ies".toList))
                rxWordB)))))))

/-- `\b([A-Za-z][A-Za-z ]{2,40})\s+and\s+([A-Za-z][A-Za-z ]{2,40})\b`
(case-sensitive; the "X and Y" fallback). -/
def pairAndPat (fuel : Nat) : RxM :=
  let word (n : Nat) := rxGroup n (rxSeq (rxCls alphaChar)
    (rxRepG (rxCls fun c => alphaChar c || c = ' ') 2 40))
  rxSeq rxWordB (rxSeq (word 1)
    (rxSeq (rxPlusG (rxCls wsChar) fuel)
      (rxSeq (rxLit false "and".toList)
        (rxSeq (rxPlusG (rxCls wsChar) fuel) (rxSeq (word 2) rxWordB)))))

/-- No word character on the left of the current position. -/
def noWordBefore : Option Char → Bool
  | none => true
  | some p => !wordChar p

/-- `re.sub(r"\band\b", ",", raw, flags=re.IGNORECASE)`: leftmost,
non-overlapping replacement of word-bounded `and`. -/
def subAndComma : Option Char → List Char → List Char
  | _, [] => []
  | prev, a :: n :: d :: tl =>
    if noWordBefore prev && (chLower a = 'a' && chLower n = 'n' && chLower d = 'd')
        && (match tl with | [] => true | e :: _ => !wordChar e) then
      ',' :: subAndComma (some 'd') tl
    else a :: subAndComma (some a) (n :: d :: tl)
  | _, a :: rest => a :: subAndComma (some a) rest

/-! ## The repair-layer helper functions of `tool_executor_node` -/

/-- Digit characters to a natural number (Python `int` on the 1–3 digit
captures, which never fails). -/
def digitsToNat : List Char → Nat
  | [] => 0
  | c :: rest => digitsToNat rest + (c.toNat - 48) * 10 ^ rest.length

/-- Python `float` on a capture of shape `[0-9]` or `[0-9].[0-9]`:
exact, since these are one- or two-digit decimals. -/
def numFromCap (l : List Char) : Rat :=
  match l with
  | [d] => ((d.toNat - 48 : Nat) : Rat)
  | [d, _, e] => ((d.toNat - 48 : Nat) : Rat) + mkRat (e.toNat - 48) 10
  | _ => 0

/-- The `max_rating` inference (nodes.py lines 370–380): search the
goal for `(below|under|less than)\s*([0-9](?:\.[0-9])?)` and parse
group 2 as a float. -/
def inferMaxRating (goal : String) : Option Rat :=
  (rxSearch (belowPat (goal.length + 1)) goal).bind fun m =>
    (capGet m.2 2).map numFromCap

/-- The `min_rating` inference (nodes.py lines 381–391). -/
def inferMinRating (goal : String) : Option Rat :=
  (rxSearch (abovePat (goal.length + 1)) goal).bind fun m =>
    (capGet m.2 2).map numFromCap

/-- `_extract_top_n` (nodes.py lines 252–269): `top N`, then
`N products|items`, as a positive count candidate. -/
def extract_top_n (text : String) : Option Int :=
  if text = "" then none
  else
    match rxSearch (topNPat (text.length + 1)) text with
    | some m => (capGet m.2 1).map fun ds => (digitsToNat ds : Int)
    | none =>
      match rxSearch (nItemsPat (text.length + 1)) text with
      | some m => (capGet m.2 1).map fun ds => (digitsToNat ds : Int)
      | none => none

/-- `_extract_category_hints` (nodes.py lines 212–250): the
`in the X and Y categories` phrase, else the `X and Y` pair fallback,
post-processed into a comma-joined short hint. -/
def extract_category_hints (text : String) : Option String :=
  if text = "" then none
  else
    let t := pyStrip text
    if t = "" then none
    else
      let viaPhrase : Option String :=
        match rxSearch (catPhrasePat (t.length + 1)) t with
        | some m =>
          match capGet m.2 1 with
          | some rawl =>
            let raw := pyReplace (pyReplace (⟨rawl⟩ : String) "&" " and ") "|" ","
            let raw := (⟨subAndComma none raw.toList⟩ : String)
            let parts := ((pySplitComma raw).map (pyStripChars [' ', '.'])).filter
              fun p => p ≠ ""
            let parts := parts.filter fun p =>
              decide (1 ≤ pyWordCount p ∧ pyWordCount p ≤ 4 ∧ p.length ≤ 40)
            if parts ≠ [] then some (joinComma parts) else none
          | none => none
        | none => none
      match viaPhrase with
      | some h => some h
      | none =>
        match rxSearch (pairAndPat (t.length + 1)) t with
        | some m =>
          match capGet m.2 1, capGet m.2 2 with
          | some g1, some g2 =>
            let a := pyStripChars [' ', '.', ',', ':', ';'] (pyStrip (⟨g1⟩ : String))
            let b := pyStripChars [' ', '.', ',', ':', ';'] (pyStrip (⟨g2⟩ : String))
            if decide (1 ≤ pyWordCount a ∧ pyWordCount a ≤ 4 ∧
                1 ≤ pyWordCount b ∧ pyWordCount b ≤ 4) then
              some (a ++ ", " ++ b)
            else none
          | _, _ => none
        | none => none

/-! ## JSON-object extraction: `re.search(r"\{[^{}]*\}", analysis)`

The executor's extraction regex matches a brace-delimited region with
no internal braces: at a candidate `{`, the greedy `[^{}]*` runs to the
next brace, which must be `}`; otherwise the engine moves on to the
next `{`.  The scanner below implements exactly that. -/

/-- Scan after an opening brace: succeed at the next `}`, restart at
the next `{`. -/
def scanFlatObj (acc : List Char) : List Char → Option (List Char)
  | [] => none
  | c :: r =>
    if c = '\x7d' then some ('\x7b' :: (acc.reverse ++ ['\x7d']))
    else if c = '\x7b' then scanFlatObj [] r
    else scanFlatObj (c :: acc) r

/-- The leftmost match of `\{[^{}]*\}`, as `re.search` finds it. -/
def extractFlatObj : List Char → Option (List Char)
  | [] => none
  | c :: r => if c = '\x7b' then scanFlatObj [] r else extractFlatObj r

/-- The planner's `re.search(r"\[.*\]", text, re.DOTALL)`: from the
first `[` to the last `]`, when the latter comes after the former. -/
def extractJsonArray (s : String) : Option String :=
  let l := s.toList
  match l.findIdx? (· = '[') with
  | none => none
  | some i =>
    match l.reverse.findIdx? (· = ']') with
    | none => none
    | some jr =>
      let j := l.length - 1 - jr
      if i < j then some (⟨(l.drop i).take (j + 1 - i)⟩ : String) else none

/-! ## Agent state, node updates, and the five nodes

`AgentState` is the LangGraph state schema (state.py).  A node returns
a partial update; LangGraph merges it into the state, appending to
`tool_results` (an `operator.add` channel) and replacing the other
fields when present.  The `messages` channel carries only display
text and is not modelled. -/

/-- One entry of `tool_results`: either a full invocation record
`{"step", "tool", "parameters", "result"}` or an error record
`{"error": msg}`. -/
inductive ToolRecord where
  | ok (step : Nat) (tool : String) (parameters : PDict) (result : JValue)
  | err (msg : String)
deriving DecidableEq

/-- The LangGraph state schema (state.py), minus the display-only
`messages` channel. -/
structure AgentState where
  user_goal : String
  plan : List String
  current_step : Nat
  tool_results : List ToolRecord
  intermediate_analysis : String
  final_answer : Option String
  iteration_count : Nat
  needs_more_info : Bool
deriving DecidableEq

/-- A node's partial update dict. -/
structure NodeUpdate where
  plan : Option (List String)
  current_step : Option Nat
  tool_results : List ToolRecord
  intermediate_analysis : Option String
  final_answer : Option (Option String)
  iteration_count : Option Nat
  needs_more_info : Option Bool
deriving DecidableEq

/-- The empty update. -/
def noUpdate : NodeUpdate := ⟨none, none, [], none, none, none, none⟩

/-- LangGraph's state merge: `tool_results` accumulates, the other
channels are overwritten when the update names them. -/
def applyUpdate (s : AgentState) (u : NodeUpdate) : AgentState :=
  { user_goal := s.user_goal
    plan := u.plan.getD s.plan
    current_step := u.current_step.getD s.current_step
    tool_results := s.tool_results ++ u.tool_results
    intermediate_analysis := u.intermediate_analysis.getD s.intermediate_analysis
    final_answer := u.final_answer.getD s.final_answer
    iteration_count := u.iteration_count.getD s.iteration_count
    needs_more_info := u.needs_more_info.getD s.needs_more_info }

/-- Strip-and-drop-blank line splitting, the planner's fallback
`[line.strip() for line in text.split("\n") if line.strip()]`. -/
def pyLineSplit (s : String) : List String :=
  ((pySplitNl s).map pyStrip).filter fun l => l ≠ ""

/-- `planner_node` (nodes.py lines 38–97).  The oracle response and
`json.loads` are opaque; `parse` returns the loaded array of steps or
`none` for a `JSONDecodeError`. -/
def planner_node (parse : String → Option (List String)) (resp : String)
    (st : AgentState) : NodeUpdate :=
  let plan :=
    match extractJsonArray resp with
    | some jt =>
      match parse jt with
      | some l => l
      | none => pyLineSplit resp
    | none => pyLineSplit resp
  { noUpdate with
    plan := some plan
    current_step := some 0
    iteration_count := some (st.iteration_count + 1) }

/-- `tool_selector_node` (nodes.py lines 100–187): short-circuits past
the end of the plan, else records the oracle's raw selection text. -/
def tool_selector_node (resp : String) (st : AgentState) : NodeUpdate :=
  if st.plan.length ≤ st.current_step then
    { noUpdate with needs_more_info := some false }
  else
    { noUpdate with
      intermediate_analysis := some resp
      needs_more_info := some true }

/-! ## The tool executor (nodes.py lines 190–536) -/

/-- The tool registry keys, in `TOOLS` order. -/
def TOOL_NAMES : List String :=
  ["search_products", "analyze_reviews", "calculate_statistics"]

/-- The current step's text,
`state.get("plan", [])[state.get("current_step", 0)]` with the
`IndexError` handler that yields `""`. -/
def stepText (st : AgentState) : String := (st.plan.get? st.current_step).getD ""

/-- Tool-name fallback (lines 297–303): if the selection's `tool` is
falsy, take the first registry name occurring in the lowercased raw
text. -/
def inferToolFallback (analysis : String) (t0 : JValue) : JValue :=
  if pyTruthy t0 then t0
  else
    match TOOL_NAMES.find? (fun c => strContains (pyLower analysis) c) with
    | some c => .str c
    | none => t0

/-- The deterministic step-intent override (lines 305–328): review
analysis cues force `analyze_reviews`; statistics cues force
`calculate_statistics`. -/
def overrideToolByStep (stepLower : String) (t : JValue) : JValue :=
  if strContains stepLower "review" &&
      (strContains stepLower "analy" || strContains stepLower "complaint" ||
        strContains stepLower "praise" || strContains stepLower "theme") then
    .str "analyze_reviews"
  else if strContains stepLower "statistic" || strContains stepLower "calculate" ||
      strContains stepLower "compare" || strContains stepLower "ranking" ||
      strContains stepLower "average" || strContains stepLower "summary" then
    .str "calculate_statistics"
  else t

/-- The `search_products` parameter repair (lines 331–397): category
hints when no filter is set, dropping a whole-goal category, rating
bounds from the goal, and a `top N` limit. -/
def repairSearchParams (st : AgentState) (params : PDict) : PDict :=
  let hasAnyFilter :=
    ["category", "keyword", "min_price", "max_price", "min_rating",
      "max_rating", "limit"].any fun k =>
      match dlookup params k with
      | some v => v ≠ .null
      | none => false
  let p1 :=
    if hasAnyFilter then params
    else
      match extract_category_hints (stepText st) with
      | some h => dset params "category" (.str h)
      | none =>
        match extract_category_hints st.user_goal with
        | some h => dset params "category" (.str h)
        | none => params
  let p2 :=
    match dlookup p1 "category" with
    | some (.str c) =>
      if decide (40 < c.length) && strContains c " " &&
          pyLower (pyStrip c) = pyLower (pyStrip st.user_goal) then
        dpop p1 "category"
      else p1
    | _ => p1
  let p3 :=
    if hasKey p2 "max_rating" then p2
    else
      match inferMaxRating st.user_goal with
      | some q => dset p2 "max_rating" (.float q)
      | none => p2
  let p4 :=
    if hasKey p3 "min_rating" then p3
    else
      match inferMinRating st.user_goal with
      | some q => dset p3 "min_rating" (.float q)
      | none => p3
  if hasKey p4 "limit" then p4
  else
    match extract_top_n st.user_goal with
    | some n => if 0 < n then dset p4 "limit" (.int n) else p4
    | none => p4

/-- All tool-specific parameter repairs (lines 331–428): search
repairs, the statistics `operation` default, the review analysis-type
inference, and the ranking `top_n`. -/
def repairParams (st : AgentState) (t : JValue) (params : PDict) : PDict :=
  let stepLower := pyLower (stepText st)
  let p1 := if t = .str "search_products" then repairSearchParams st params else params
  let p2 :=
    if t = .str "calculate_statistics" && !hasKey p1 "operation" then
      dset p1 "operation" (.str "summary")
    else p1
  let p3 :=
    if t = .str "analyze_reviews" && !hasKey p2 "analysis_type" then
      if strContains stepLower "praise" || strContains stepLower "successful" ||
          strContains stepLower "what makes" then
        dset p2 "analysis_type" (.str "praise")
      else if strContains stepLower "theme" then
        dset p2 "analysis_type" (.str "themes")
      else if strContains stepLower "complaint" || strContains stepLower "issue" ||
          strContains stepLower "avoid" then
        dset p2 "analysis_type" (.str "complaints")
      else p2
    else p2
  if t = .str "calculate_statistics" &&
      dlookup p3 "operation" = some (.str "rating_ranking") &&
      !hasKey p3 "top_n" then
    match extract_top_n st.user_goal with
    | some n => if 0 < n then dset p3 "top_n" (.int n) else p3
    | none => p3
  else p3

/-- The most recent `search_products` record's result (lines 432–436),
scanning `reversed(tool_results)`; error records carry no `tool` key
and are skipped. -/
def findLastSearchRev : List ToolRecord → Option JValue
  | [] => none
  | .ok _ t _ res :: rest =>
    if t = "search_products" then some res else findLastSearchRev rest
  | .err _ :: rest => findLastSearchRev rest

/-- `last_search` over the history in its stored order. -/
def findLastSearch (trs : List ToolRecord) : Option JValue :=
  findLastSearchRev trs.reverse

/-- `[p.get("product_name") for p in products if p.get("product_name")]`
(lines 440–444); a non-mapping entry raises, which the generic handler
turns into an error record. -/
def productNames : List JValue → Except String (List JValue)
  | [] => .ok []
  | .obj pk :: rest =>
    (productNames rest).map fun ns =>
      let v := (dlookup pk "product_name").getD .null
      if pyTruthy v then v :: ns else ns
  | _ :: _ => .error "Tool execution error: product entry is not a mapping"

/-- Pipeline enforcement (lines 430–470): analysis/statistics calls
without an explicit product filter are restricted to the latest
search's product names; a string-valued latest search is fatal. -/
def pipelineEnforce (trs : List ToolRecord) (t : JValue) (params : PDict) :
    Except String PDict :=
  if t = .str "analyze_reviews" || t = .str "calculate_statistics" then
    match findLastSearch trs with
    | some (.obj res) =>
      match dlookup res "products" with
      | some (.arr prods) =>
        (productNames prods).map fun names =>
          let q1 :=
            if t = .str "analyze_reviews" && !hasKey params "product_names" &&
                !hasKey params "product_name" then
              dset params "product_names" (.arr names)
            else params
          if t = .str "calculate_statistics" && !hasKey q1 "product_names" &&
              !pyTruthy ((dlookup q1 "categories").getD .null) then
            dset q1 "product_names" (.arr names)
          else q1
      | _ => .ok params
    | some (.str s) => .error ("Search did not produce a product subset: " ++ s)
    | _ => .ok params
  else .ok params

/-- `tool_name in TOOL_MAP`. -/
def isKnownTool (t : JValue) : Option String :=
  match t with
  | .str s => if TOOL_NAMES.contains s then some s else none
  | _ => none

/-- The scan of `_find_duplicate_result` over the reversed history
(lines 271–290): skip error records and other tools, return the first
record whose canonicalized parameters equal the target. -/
def findDupRev (tool : String) (target : JValue) : List ToolRecord → JValue
  | [] => .null
  | .ok _ t ps res :: rest =>
    if t = tool && pynorm (.obj ps) = target then res
    else findDupRev tool target rest
  | .err _ :: rest => findDupRev tool target rest

/-- `_find_duplicate_result(tool, params)`: the reused result, or
Python `None` when no canonically equal successful call exists. -/
def find_duplicate_result (tool : String) (params : PDict)
    (trs : List ToolRecord) : JValue :=
  findDupRev tool (pynorm (.obj params)) trs.reverse

/-- `tool_selection.get("parameters", {}) or {}`. -/
def selParams (sel : PDict) : JValue :=
  let praw := (dlookup sel "parameters").getD (.obj [])
  if pyTruthy praw then praw else .obj []

/-- The tool name after the fallback inference and the step-intent
override (lines 294–328). -/
def resolvedTool (st : AgentState) (sel : PDict) : JValue :=
  overrideToolByStep (pyLower (stepText st))
    (inferToolFallback st.intermediate_analysis ((dlookup sel "tool").getD .null))

/-- The executor's tail after the tool name and repaired parameters
are fixed: pipeline enforcement, the missing/unknown-tool checks,
deduplication, and the actual invocation (lines 430–523). -/
def execResolved (invoke : String → PDict → Except String JValue)
    (st : AgentState) (t2 : JValue) (params1 : PDict) :
    Except String (String × PDict × JValue) :=
  match pipelineEnforce st.tool_results t2 params1 with
  | .error e => .error e
  | .ok params =>
    if !pyTruthy t2 then .error "Tool selection missing tool name"
    else
      match isKnownTool t2 with
      | none => .error ("Unknown tool: " ++ pyStr t2)
      | some tool =>
        match find_duplicate_result tool params st.tool_results with
        | .null =>
          match invoke tool params with
          | .ok result => .ok (tool, params, result)
          | .error e => .error ("Tool execution error: " ++ e)
        | dup => .ok (tool, params, dup)

/-- The decision core of `tool_executor_node` (lines 199–523): every
early `return` with an error record is `.error msg`; the deduplicated
and freshly executed paths both end `.ok (tool, parameters, result)`.
`parse` is `json.loads` (opaque; `none` is a `JSONDecodeError`, whose
message text is not modelled), and `invoke` is the LangChain tool call
(opaque; `.error` is a raised exception's text).  A truthy non-mapping
`"parameters"` value makes every later repair step raise an
`AttributeError`/`TypeError` caught by the generic handler; it is
modelled as that error record directly. -/
def execCore (parse : String → Option PDict)
    (invoke : String → PDict → Except String JValue) (st : AgentState) :
    Except String (String × PDict × JValue) :=
  match extractFlatObj st.intermediate_analysis.toList with
  | none => .error "Failed to parse tool selection"
  | some jtext =>
    match parse (⟨jtext⟩ : String) with
    | none => .error "JSON parsing error: invalid JSON"
    | some sel =>
      match selParams sel with
      | .obj params0 =>
        execResolved invoke st (resolvedTool st sel)
          (repairParams st (resolvedTool st sel) params0)
      | _ => .error "Tool execution error: parameters is not a mapping"

/-- An error return of the executor: one error record, continuation
flag cleared, and no step-cursor key in the update. -/
def errUpdate (msg : String) : NodeUpdate :=
  { noUpdate with tool_results := [.err msg], needs_more_info := some false }

/-- A success/dedup return of the executor: one full record and the
step cursor advanced by exactly one. -/
def okRecUpdate (st : AgentState) (tool : String) (params : PDict)
    (result : JValue) : NodeUpdate :=
  { noUpdate with
    tool_results := [.ok (st.current_step + 1) tool params result]
    current_step := some (st.current_step + 1) }

/-- `tool_executor_node` (nodes.py lines 190–536). -/
def tool_executor_node (parse : String → Option PDict)
    (invoke : String → PDict → Except String JValue) (st : AgentState) :
    NodeUpdate :=
  match execCore parse invoke st with
  | .error m => errUpdate m
  | .ok (t, p, r) => okRecUpdate st t p r

/-! ## Analyzer, router, synthesizer, and the graph -/

/-- `"error" in tool_results[-1]` on a nonempty history. -/
def lastIsError (trs : List ToolRecord) : Bool :=
  match trs.getLast? with
  | some (.err _) => true
  | _ => false

/-- `analyzer_node` (nodes.py lines 539–581): halt on a trailing error
record (without touching the counter), else continue or finish,
incrementing the iteration counter. -/
def analyzer_node (st : AgentState) : NodeUpdate :=
  if lastIsError st.tool_results then
    { noUpdate with needs_more_info := some false }
  else if st.current_step < st.plan.length then
    { noUpdate with
      needs_more_info := some true
      iteration_count := some (st.iteration_count + 1) }
  else
    { noUpdate with
      needs_more_info := some false
      iteration_count := some (st.iteration_count + 1) }

/-- The two targets of the conditional edge out of the analyzer. -/
inductive Route where
  | tool_selector
  | synthesizer
deriving DecidableEq

/-- `should_continue` (graph.py lines 44–69). -/
def should_continue (maxIterations : Nat) (st : AgentState) : Route :=
  if maxIterations ≤ st.iteration_count then .synthesizer
  else if st.needs_more_info then
    if st.current_step < st.plan.length then .tool_selector else .synthesizer
  else .synthesizer

/-- `synthesizer_node` (nodes.py lines 584–644): one oracle call whose
text becomes the final answer. -/
def synthesizer_node (resp : String) : NodeUpdate :=
  { noUpdate with final_answer := some (some resp), needs_more_info := some false }

/-- The node about to run. -/
inductive NodeTag where
  | planner
  | tool_selector
  | tool_executor
  | analyzer
  | synthesizer
  | done
deriving DecidableEq

/-- A point in the graph's execution: the pending node and the state. -/
structure GState where
  tag : NodeTag
  st : AgentState
deriving DecidableEq

/-- `run_agent`'s initial state (graph.py lines 147–157). -/
def initState (goal : String) : AgentState :=
  { user_goal := goal
    plan := []
    current_step := 0
    tool_results := []
    intermediate_analysis := ""
    final_answer := none
    iteration_count := 0
    needs_more_info := true }

/-- One node execution of the compiled graph (graph.py lines 87–127):
planner → selector → executor → analyzer → (selector | synthesizer) →
END, with every oracle response, `json.loads` outcome and tool outcome
arbitrary. -/
inductive GStep (maxIterations : Nat) : GState → GState → Prop where
  | plan (parse : String → Option (List String)) (resp : String) (st : AgentState) :
      GStep maxIterations ⟨.planner, st⟩
        ⟨.tool_selector, applyUpdate st (planner_node parse resp st)⟩
  | select (resp : String) (st : AgentState) :
      GStep maxIterations ⟨.tool_selector, st⟩
        ⟨.tool_executor, applyUpdate st (tool_selector_node resp st)⟩
  | exec (parse : String → Option PDict)
      (invoke : String → PDict → Except String JValue) (st : AgentState) :
      GStep maxIterations ⟨.tool_executor, st⟩
        ⟨.analyzer, applyUpdate st (tool_executor_node parse invoke st)⟩
  | analyze (st : AgentState) :
      GStep maxIterations ⟨.analyzer, st⟩
        ⟨match should_continue maxIterations (applyUpdate st (analyzer_node st)) with
          | .tool_selector => .tool_selector
          | .synthesizer => .synthesizer,
          applyUpdate st (analyzer_node st)⟩
  | synth (resp : String) (st : AgentState) :
      GStep maxIterations ⟨.synthesizer, st⟩
        ⟨.done, applyUpdate st (synthesizer_node resp)⟩

/-- The graph's reachable configurations for a run on `goal`. -/
inductive Reachable (maxIterations : Nat) (goal : String) : GState → Prop where
  | init : Reachable maxIterations goal ⟨.planner, initState goal⟩
  | step {g g' : GState} : Reachable maxIterations goal g →
      GStep maxIterations g g' → Reachable maxIterations goal g'

/-! ## The search tool's empty-filter guard (search_tool.py) -/

/-- The argument schema of `search_products`
(`ProductSearchInput`, search_tool.py lines 17–41). -/
structure SearchArgs where
  category : Option String
  min_price : Option Rat
  max_price : Option Rat
  min_rating : Option Rat
  max_rating : Option Rat
  keyword : Option String
  limit : Option Int
deriving DecidableEq

/-- Python truthiness of an optional string (`not category`). -/
def optStrTruthy : Option String → Bool
  | none => false
  | some s => s ≠ ""

/-- The fixed guard string (search_tool.py line 119). -/
def guardMessage : String :=
  "Please specify a category or keyword to narrow the search."

/-- `search_products` (search_tool.py lines 83–196) around its
empty-filter guard.  Dataset loading (`_load_dataset`) and the
filtering/formatting tail are external per spec §1, so they are the
opaque `load` and `rest`; a raised load failure is caught by the
function's generic handler and becomes an error string. -/
def search_products {DF : Type} (load : Except String DF)
    (rest : DF → SearchArgs → JValue) (a : SearchArgs) : JValue :=
  match load with
  | .error e => .str ("Error searching products: " ++ e)
  | .ok df =>
    if !optStrTruthy a.category && !optStrTruthy a.keyword &&
        a.min_price.isNone && a.max_price.isNone && a.min_rating.isNone &&
        a.max_rating.isNone && a.limit.isNone then
      .str guardMessage
    else rest df a

/-! ## C10: the all-`None` search guard -/

/-- C10.  When every one of `category`, `keyword`, `min_price`,
`max_price`, `min_rating`, `max_rating` and `limit` is `None` (and the
dataset loads), `search_products` returns the fixed guard string
asking to narrow the search instead of any structured whole-dataset
result. -/
theorem C10_search_guard {DF : Type} (load : Except String DF)
    (rest : DF → SearchArgs → JValue) (df : DF) (a : SearchArgs)
    (hload : load = .ok df)
    (h1 : a.category = none) (h2 : a.keyword = none) (h3 : a.min_price = none)
    (h4 : a.max_price = none) (h5 : a.min_rating = none)
    (h6 : a.max_rating = none) (h7 : a.limit = none) :
    search_products load rest a = .str guardMessage := by
  subst hload
  obtain ⟨c, mp, xp, mr, xr, k, lim⟩ := a
  simp only at h1 h2 h3 h4 h5 h6 h7
  subst h1 h2 h3 h4 h5 h6 h7
  rfl

/-- Witness for C10 at a concrete load and argument set. -/
theorem C10_search_guard_witness :
    search_products (Except.ok ()) (fun _ _ => JValue.null)
      ⟨none, none, none, none, none, none, none⟩ = .str guardMessage :=
  C10_search_guard (Except.ok ()) (fun _ _ => JValue.null) ()
    ⟨none, none, none, none, none, none, none⟩ rfl rfl rfl rfl rfl rfl rfl rfl

/-! ## C9: the Plan Builder's output and side effects -/

/-- Counterexample to C9 as stated: on a whitespace-only oracle
response the plan is the empty list, not a non-empty sequence (the
line-split fallback produces no lines). -/
theorem C9_planner_empty_cex :
    (planner_node (fun _ => none) "" (initState "g")).plan = some [] ∧
      (planner_node (fun _ => none) "" (initState "g")).current_step = some 0 := by
  exact ⟨rfl, rfl⟩

/-- C9, amended.  The Plan Builder returns the parsed JSON array when
the bracket-window parses, and otherwise the stripped non-blank lines
of the response — either of which may be empty (so the "non-empty"
guarantee fails, see the counterexample) — and its update always
resets the step cursor to 0 and increments the iteration counter by
exactly one. -/
theorem C9_planner_amended (parse : String → Option (List String))
    (resp : String) (st : AgentState) :
    (planner_node parse resp st).current_step = some 0 ∧
    (planner_node parse resp st).iteration_count = some (st.iteration_count + 1) ∧
    (∀ jt l, extractJsonArray resp = some jt → parse jt = some l →
      (planner_node parse resp st).plan = some l) ∧
    (∀ jt, extractJsonArray resp = some jt → parse jt = none →
      (planner_node parse resp st).plan = some (pyLineSplit resp)) ∧
    (extractJsonArray resp = none →
      (planner_node parse resp st).plan = some (pyLineSplit resp)) := by
  refine ⟨rfl, rfl, ?_, ?_, ?_⟩
  · intro jt l hjt hl
    simp [planner_node, hjt, hl]
  · intro jt hjt hl
    simp [planner_node, hjt, hl]
  · intro hnone
    simp [planner_node, hnone]

/-- Witness for C9's amended theorem: a response with no JSON array
falls back to line splitting. -/
theorem C9_planner_amended_witness :
    (planner_node (fun _ => none) "step one" (initState "g")).plan =
      some ["step one"] := by
  exact (C9_planner_amended (fun _ => none) "step one" (initState "g")).2.2.2.2 rfl

/-! ## C3: the progress-check routing -/

/-- C3.  After the analyzer runs, the conditional edge routes to the
synthesizer exactly when the (updated) iteration counter has reached
the ceiling, or the latest history record is an error, or the step
cursor has reached the plan length; in every other case it loops back
to the tool selector — so a ceiling hit still flows into synthesis
rather than an abort. -/
theorem C3_progress_routing (maxIterations : Nat) (st : AgentState) :
    (should_continue maxIterations (applyUpdate st (analyzer_node st)) =
        .synthesizer ↔
      (maxIterations ≤ (applyUpdate st (analyzer_node st)).iteration_count ∨
        lastIsError st.tool_results = true ∨
        st.plan.length ≤ st.current_step)) ∧
    (should_continue maxIterations (applyUpdate st (analyzer_node st)) =
        .tool_selector ↔
      ¬(maxIterations ≤ (applyUpdate st (analyzer_node st)).iteration_count ∨
        lastIsError st.tool_results = true ∨
        st.plan.length ≤ st.current_step)) := by
  by_cases herr : lastIsError st.tool_results
  · by_cases hiter : maxIterations ≤ st.iteration_count
    · simp [analyzer_node, should_continue, applyUpdate, noUpdate, herr, hiter]
    · simp [analyzer_node, should_continue, applyUpdate, noUpdate, herr, hiter]
  · by_cases hstep : st.current_step < st.plan.length
    · by_cases hiter : maxIterations ≤ st.iteration_count + 1
      · simp only [analyzer_node, should_continue, applyUpdate, noUpdate, herr,
          hstep]
        simp [hiter]
      · simp only [analyzer_node, should_continue, applyUpdate, noUpdate, herr,
          hstep]
        simp [hiter]
    · simp [analyzer_node, should_continue, applyUpdate, noUpdate, herr, hstep]
      omega

/-! ## C5: what the executor's JSON extraction actually finds -/

/-- Modelled from the spec: "Extract the first balanced JSON object
from the raw text via bracket-matching".  This is the reference
bracket-counting matcher that the claim describes; the code's regex
`\{[^{}]*\}` is `extractFlatObj`.  Comparing the two settles the
claim. -/
def balancedFrom (depth : Nat) (acc : List Char) : List Char → Option (List Char)
  | [] => none
  | c :: r =>
    if c = '\x7b' then balancedFrom (depth + 1) (c :: acc) r
    else if c = '\x7d' then
      match depth with
      | 0 => none
      | 1 => some ((c :: acc).reverse)
      | d + 2 => balancedFrom (d + 1) (c :: acc) r
    else balancedFrom depth (c :: acc) r

/-- Modelled from the spec: the first balanced `{...}` region. -/
def specExtractBalanced : List Char → Option (List Char)
  | [] => none
  | c :: r =>
    if c = '\x7b' then balancedFrom 1 [c] r else specExtractBalanced r

/-- `scanFlatObj` fails exactly when no closing brace remains. -/
theorem scanFlatObj_eq_none :
    ∀ (r : List Char) (acc : List Char),
      scanFlatObj acc r = none ↔ '\x7d' ∉ r := by
  intro r
  induction r with
  | nil => intro acc; simp [scanFlatObj]
  | cons c r ih =>
    intro acc
    simp only [scanFlatObj]
    by_cases h1 : c = '\x7d'
    · simp [h1]
    · rw [if_neg h1]
      by_cases h2 : c = '\x7b'
      · rw [if_pos h2, ih []]
        simp [List.mem_cons, eq_comm, h1]
      · rw [if_neg h2, ih (c :: acc)]
        simp [List.mem_cons, eq_comm, h1]

/-- A successful `scanFlatObj` (entered after an opening brace with a
brace-free accumulator) returns a brace-delimited, internally
brace-free region. -/
theorem scanFlatObj_shape :
    ∀ (r acc m : List Char), (∀ c ∈ acc, c ≠ '\x7b' ∧ c ≠ '\x7d') →
      scanFlatObj acc r = some m →
      ∃ mid, m = '\x7b' :: (mid ++ ['\x7d']) ∧
        ∀ c ∈ mid, c ≠ '\x7b' ∧ c ≠ '\x7d' := by
  intro r
  induction r with
  | nil => intro acc m _ h; simp [scanFlatObj] at h
  | cons c r ih =>
    intro acc m hacc h
    simp only [scanFlatObj] at h
    by_cases h1 : c = '\x7d'
    · rw [if_pos h1, Option.some.injEq] at h
      refine ⟨acc.reverse, h.symm, ?_⟩
      intro d hd
      exact hacc d (List.mem_reverse.mp hd)
    · rw [if_neg h1] at h
      by_cases h2 : c = '\x7b'
      · rw [if_pos h2] at h
        exact ih [] m (by simp) h
      · rw [if_neg h2] at h
        refine ih (c :: acc) m ?_ h
        intro d hd
        rcases List.mem_cons.mp hd with h3 | h3
        · subst h3; exact ⟨h2, h1⟩
        · exact hacc d h3

/-- Shape of every successful extraction: a brace pair with no brace
inside. -/
theorem extractFlatObj_shape :
    ∀ (l m : List Char), extractFlatObj l = some m →
      ∃ mid, m = '\x7b' :: (mid ++ ['\x7d']) ∧
        ∀ c ∈ mid, c ≠ '\x7b' ∧ c ≠ '\x7d' := by
  intro l
  induction l with
  | nil => intro m h; simp [extractFlatObj] at h
  | cons c r ih =>
    intro m h
    simp only [extractFlatObj] at h
    by_cases h1 : c = '\x7b'
    · rw [if_pos h1] at h
      exact scanFlatObj_shape r [] m (by simp) h
    · rw [if_neg h1] at h
      exact ih m h

/-- An extraction exists exactly when some opening brace is followed,
anywhere later, by a closing brace. -/
theorem extractFlatObj_isSome_iff :
    ∀ l : List Char, (extractFlatObj l).isSome = true ↔
      ∃ p s, l = p ++ '\x7b' :: s ∧ '\x7d' ∈ s := by
  intro l
  induction l with
  | nil =>
    simp only [extractFlatObj, Option.isSome_none, Bool.false_eq_true, false_iff]
    rintro ⟨p, s, h, -⟩
    exact absurd h (by simp)
  | cons c r ih =>
    simp only [extractFlatObj]
    by_cases h1 : c = '\x7b'
    · rw [if_pos h1]
      subst h1
      constructor
      · intro h
        have hne : scanFlatObj [] r ≠ none := by
          intro hn
          rw [hn] at h
          simp at h
        have hmem : '\x7d' ∈ r := by
          by_contra hmem
          exact hne ((scanFlatObj_eq_none r []).mpr hmem)
        exact ⟨[], r, rfl, hmem⟩
      · rintro ⟨p, s, hdec, hmem⟩
        have hmemr : '\x7d' ∈ r := by
          cases p with
          | nil =>
            simp only [List.nil_append, List.cons.injEq] at hdec
            exact hdec.2 ▸ hmem
          | cons d p' =>
            simp only [List.cons_append, List.cons.injEq] at hdec
            rw [hdec.2]
            exact List.mem_append.mpr (Or.inr (List.mem_cons_of_mem _ hmem))
        rw [Option.isSome_iff_ne_none]
        intro hn
        exact absurd hmemr ((scanFlatObj_eq_none r []).mp hn)
    · rw [if_neg h1, ih]
      constructor
      · rintro ⟨p, s, hdec, hmem⟩
        exact ⟨c :: p, s, by rw [hdec]; rfl, hmem⟩
      · rintro ⟨p, s, hdec, hmem⟩
        cases p with
        | nil =>
          simp only [List.nil_append, List.cons.injEq] at hdec
          exact absurd hdec.1 h1
        | cons d p' =>
          simp only [List.cons_append, List.cons.injEq] at hdec
          exact ⟨p', s, hdec.2, hmem⟩

/-- Counterexample to C5 as stated: on a selection whose parameters
contain a nested object, the first *balanced* object is the whole
selection, but the code's regex extracts the inner flat object
instead, so the selection is not parsed as a whole. -/
theorem C5_extraction_cex :
    specExtractBalanced
        "\x7b\"tool\": \"x\", \"parameters\": \x7b\"a\": 1\x7d\x7d".toList =
      some "\x7b\"tool\": \"x\", \"parameters\": \x7b\"a\": 1\x7d\x7d".toList ∧
    extractFlatObj
        "\x7b\"tool\": \"x\", \"parameters\": \x7b\"a\": 1\x7d\x7d".toList =
      some "\x7b\"a\": 1\x7d".toList ∧
    extractFlatObj
        "\x7b\"tool\": \"x\", \"parameters\": \x7b\"a\": 1\x7d\x7d".toList ≠
      specExtractBalanced
        "\x7b\"tool\": \"x\", \"parameters\": \x7b\"a\": 1\x7d\x7d".toList := by
  refine ⟨rfl, rfl, ?_⟩
  decide

/-- C5, amended.  The repair layer extracts a brace-delimited region
containing no nested braces (the regex `\{[^{}]*\}`), not the first
balanced object — one exists exactly when some `{` is followed by a
later `}`, and it always has the flat shape; and whenever no such
region exists, the executor emits the parse-failure error record and
clears the continuation flag without guessing a tool. -/
theorem C5_extraction_amended :
    (∀ l m : List Char, extractFlatObj l = some m →
      ∃ mid, m = '\x7b' :: (mid ++ ['\x7d']) ∧
        ∀ c ∈ mid, c ≠ '\x7b' ∧ c ≠ '\x7d') ∧
    (∀ l : List Char, (extractFlatObj l).isSome = true ↔
      ∃ p s, l = p ++ '\x7b' :: s ∧ '\x7d' ∈ s) ∧
    (∀ (parse : String → Option PDict)
      (invoke : String → PDict → Except String JValue) (st : AgentState),
      extractFlatObj st.intermediate_analysis.toList = none →
      tool_executor_node parse invoke st =
        errUpdate "Failed to parse tool selection") := by
  refine ⟨extractFlatObj_shape, extractFlatObj_isSome_iff, ?_⟩
  intro parse invoke st h
  simp only [String.toList] at h
  simp [tool_executor_node, execCore, h]

/-- Witness for C5's amended theorem: the parse-failure path on an
oracle response with no braces at all. -/
theorem C5_extraction_amended_witness :
    tool_executor_node (fun _ => none) (fun _ _ => Except.error "e")
        { initState "g" with intermediate_analysis := "no json here" } =
      errUpdate "Failed to parse tool selection" := by
  exact C5_extraction_amended.2.2 (fun _ => none) (fun _ _ => Except.error "e")
    { initState "g" with intermediate_analysis := "no json here" } rfl

/-! ## C7: the review-analysis override -/

/-- A successful tail run fixes the recorded tool name: it is the
resolved tool's string. -/
theorem execResolved_ok_tool (invoke : String → PDict → Except String JValue)
    (st : AgentState) (t2 : JValue) (ps1 : PDict) (tool : String)
    (params : PDict) (result : JValue)
    (h : execResolved invoke st t2 ps1 = .ok (tool, params, result)) :
    isKnownTool t2 = some tool := by
  unfold execResolved at h
  split at h
  · exact absurd h (by simp)
  · split at h
    · exact absurd h (by simp)
    · split at h
      · exact absurd h (by simp)
      · rename_i tool' heq
        rw [heq]
        split at h
        all_goals try split at h
        all_goals simp_all

/-- A successful `execCore` run factors through the parse chain and
the resolved tool. -/
theorem execCore_ok_chain (parse : String → Option PDict)
    (invoke : String → PDict → Except String JValue) (st : AgentState)
    (x : String × PDict × JValue)
    (h : execCore parse invoke st = .ok x) :
    ∃ jtext sel params0,
      extractFlatObj st.intermediate_analysis.toList = some jtext ∧
      parse (⟨jtext⟩ : String) = some sel ∧
      selParams sel = .obj params0 ∧
      execResolved invoke st (resolvedTool st sel)
        (repairParams st (resolvedTool st sel) params0) = .ok x := by
  unfold execCore at h
  split at h
  · exact absurd h (by simp)
  · rename_i jtext hjt
    split at h
    · exact absurd h (by simp)
    · rename_i sel hsel
      split at h
      · rename_i params0 hp0
        exact ⟨jtext, sel, params0, hjt, hsel, hp0, h⟩
      · exact absurd h (by simp)

/-- C7.  (i) Whenever the lowercased current-step text contains
"review" together with one of the cues "analy", "complaint", "praise",
"theme", the step-intent override forces the resolved operation to
`analyze_reviews`, whatever tool the selector text named; and (ii) any
record-producing executor run on such a step records `analyze_reviews`
as its tool. -/
theorem C7_review_override :
    (∀ (sl : String) (t : JValue), strContains sl "review" = true →
      (strContains sl "analy" = true ∨ strContains sl "complaint" = true ∨
        strContains sl "praise" = true ∨ strContains sl "theme" = true) →
      overrideToolByStep sl t = .str "analyze_reviews") ∧
    (∀ (parse : String → Option PDict)
      (invoke : String → PDict → Except String JValue) (st : AgentState)
      (tool : String) (params : PDict) (result : JValue),
      execCore parse invoke st = .ok (tool, params, result) →
      strContains (pyLower (stepText st)) "review" = true →
      (strContains (pyLower (stepText st)) "analy" = true ∨
        strContains (pyLower (stepText st)) "complaint" = true ∨
        strContains (pyLower (stepText st)) "praise" = true ∨
        strContains (pyLower (stepText st)) "theme" = true) →
      tool = "analyze_reviews") := by
  have part1 : ∀ (sl : String) (t : JValue), strContains sl "review" = true →
      (strContains sl "analy" = true ∨ strContains sl "complaint" = true ∨
        strContains sl "praise" = true ∨ strContains sl "theme" = true) →
      overrideToolByStep sl t = .str "analyze_reviews" := by
    intro sl t hrev hcue
    unfold overrideToolByStep
    rcases hcue with h | h | h | h <;> simp [hrev, h]
  refine ⟨part1, ?_⟩
  intro parse invoke st tool params result h hrev hcue
  obtain ⟨jtext, sel, params0, -, -, -, hres⟩ := execCore_ok_chain parse invoke st _ h
  have ht2 : resolvedTool st sel = .str "analyze_reviews" := by
    unfold resolvedTool
    exact part1 _ _ hrev hcue
  rw [ht2] at hres
  have := execResolved_ok_tool _ _ _ _ _ _ _ hres
  simp only [isKnownTool] at this
  rw [if_pos (by decide)] at this
  exact (Option.some.injEq _ _ ▸ this).symm

/-- Witness for C7: the plan step "analyze reviews for complaints"
forces the analysis operation over the selector's `search_products`. -/
theorem C7_review_override_witness :
    overrideToolByStep "analyze reviews for complaints"
        (.str "search_products") = .str "analyze_reviews" :=
  C7_review_override.1 "analyze reviews for complaints"
    (.str "search_products") (by decide) (Or.inl (by decide))

/-! ## C6: pipeline enforcement over the latest search subset -/

/-- C6.  (i) For an analysis/statistics invocation with no explicit
product filter (`product_names` absent; `product_name` absent for
analysis; no truthy `categories` for statistics), when the most recent
search result in history is a mapping with a `products` list, the
repaired parameters receive exactly that search's (truthy)
product-name list.  (ii) When the most recent search result is a plain
string, the executor emits an error record naming it and clears the
continuation flag instead of running the operation dataset-wide. -/
theorem C6_pipeline_enforcement :
    (∀ (trs : List ToolRecord) (t : JValue) (params : PDict) (res : PDict)
      (prods : List JValue) (names : List JValue),
      (t = .str "analyze_reviews" ∨ t = .str "calculate_statistics") →
      findLastSearch trs = some (.obj res) →
      dlookup res "products" = some (.arr prods) →
      productNames prods = .ok names →
      hasKey params "product_names" = false →
      (t = .str "analyze_reviews" → hasKey params "product_name" = false) →
      (t = .str "calculate_statistics" →
        pyTruthy ((dlookup params "categories").getD .null) = false) →
      pipelineEnforce trs t params =
        .ok (dset params "product_names" (.arr names))) ∧
    (∀ (parse : String → Option PDict)
      (invoke : String → PDict → Except String JValue) (st : AgentState)
      (jtext : List Char) (sel : PDict) (params0 : PDict) (s : String),
      extractFlatObj st.intermediate_analysis.toList = some jtext →
      parse (⟨jtext⟩ : String) = some sel →
      selParams sel = .obj params0 →
      (resolvedTool st sel = .str "analyze_reviews" ∨
        resolvedTool st sel = .str "calculate_statistics") →
      findLastSearch st.tool_results = some (.str s) →
      tool_executor_node parse invoke st =
        errUpdate ("Search did not produce a product subset: " ++ s)) := by
  constructor
  · intro trs t params res prods names ht hlast hprod hnames hpn hpname hcat
    rcases ht with rfl | rfl
    · simp [pipelineEnforce, hlast, hprod, hnames, Except.map, hpn,
        hpname rfl]
    · simp [pipelineEnforce, hlast, hprod, hnames, Except.map, hpn,
        hcat rfl]
  · intro parse invoke st jtext sel params0 s hjt hsel hp0 ht hlast
    have hpipe : pipelineEnforce st.tool_results (resolvedTool st sel)
        (repairParams st (resolvedTool st sel) params0) =
        .error ("Search did not produce a product subset: " ++ s) := by
      rcases ht with h | h <;> simp [pipelineEnforce, h, hlast]
    simp only [String.toList] at hjt
    simp [tool_executor_node, execCore, hjt, hsel, hp0, execResolved, hpipe]

/-- Witness for C6: an `analyze_reviews` call with empty parameters
after a structured search for one product named "X". -/
theorem C6_pipeline_enforcement_witness :
    pipelineEnforce
        [.ok 1 "search_products" []
          (.obj [("products", .arr [.obj [("product_name", .str "X")]])])]
        (.str "analyze_reviews") [] =
      .ok [("product_names", .arr [.str "X"])] := by
  exact C6_pipeline_enforcement.1
    [.ok 1 "search_products" []
      (.obj [("products", .arr [.obj [("product_name", .str "X")]])])]
    (.str "analyze_reviews") []
    [("products", .arr [.obj [("product_name", .str "X")]])]
    [.obj [("product_name", .str "X")]] [.str "X"]
    (Or.inl rfl) rfl rfl rfl rfl (fun _ => rfl) (fun h => absurd h (by decide))

/-! ## C8: deduplication reuses the prior result verbatim -/

/-- Whether a history record is a non-error record of `tool` whose
canonicalized parameters equal `target` — the records
`_find_duplicate_result` does not skip. -/
def recMatchesB (tool : String) (target : JValue) : ToolRecord → Bool
  | .ok _ t ps _ => t = tool && pynorm (.obj ps) = target
  | .err _ => false

/-- `findDupRev` skips every non-matching prefix. -/
theorem findDupRev_skip (tool : String) (target : JValue) :
    ∀ (l l2 : List ToolRecord),
      (∀ rec ∈ l, recMatchesB tool target rec = false) →
      findDupRev tool target (l ++ l2) = findDupRev tool target l2 := by
  intro l
  induction l with
  | nil => intro l2 _; rfl
  | cons rec l ih =>
    intro l2 hskip
    have hrest : ∀ r ∈ l, recMatchesB tool target r = false := fun r hr =>
      hskip r (List.mem_cons_of_mem rec hr)
    cases rec with
    | ok n t ps res =>
      have hrec := hskip _ (List.mem_cons_self _ _)
      simp only [recMatchesB] at hrec
      simp only [List.cons_append, findDupRev]
      rw [if_neg (by simp [hrec])]
      exact ih l2 hrest
    | err m =>
      simp only [List.cons_append, findDupRev]
      exact ih l2 hrest

/-- A known tool name is one of the three registry strings, hence a
truthy `.str`. -/
theorem isKnownTool_some (t : JValue) (tool : String)
    (h : isKnownTool t = some tool) :
    t = .str tool ∧ pyTruthy t = true := by
  cases t with
  | str s =>
    simp only [isKnownTool] at h
    by_cases hc : TOOL_NAMES.contains s
    · rw [if_pos hc] at h
      obtain rfl := Option.some.inj h
      refine ⟨rfl, ?_⟩
      have hs := List.mem_of_elem_eq_true hc
      fin_cases hs <;> decide
    · rw [if_neg hc] at h
      exact absurd h (by simp)
  | null => exact absurd h (by simp [isKnownTool])
  | bool b => exact absurd h (by simp [isKnownTool])
  | int n => exact absurd h (by simp [isKnownTool])
  | float q => exact absurd h (by simp [isKnownTool])
  | arr l => exact absurd h (by simp [isKnownTool])
  | obj kvs => exact absurd h (by simp [isKnownTool])

/-- C8.  When the resolved operation and canonical parameters match a
prior non-error record with the same operation — the most recent such —
the executor reuses that record's result verbatim without invoking the
tool (the update is the same for every `invoke`), still appends a full
history record, and still advances the step cursor by one. -/
theorem C8_dedup_reuse (parse : String → Option PDict)
    (invoke : String → PDict → Except String JValue) (st : AgentState)
    (jtext : List Char) (sel : PDict) (params0 params psPrev : PDict)
    (tool : String) (n : Nat) (r : JValue) (pre post : List ToolRecord)
    (hjt : extractFlatObj st.intermediate_analysis.toList = some jtext)
    (hsel : parse (⟨jtext⟩ : String) = some sel)
    (hp0 : selParams sel = .obj params0)
    (htool : isKnownTool (resolvedTool st sel) = some tool)
    (hpipe : pipelineEnforce st.tool_results (resolvedTool st sel)
      (repairParams st (resolvedTool st sel) params0) = .ok params)
    (hhist : st.tool_results = pre ++ .ok n tool psPrev r :: post)
    (hcanon : pynorm (.obj psPrev) = pynorm (.obj params))
    (hpost : ∀ rec ∈ post,
      recMatchesB tool (pynorm (.obj params)) rec = false)
    (hr : r ≠ .null) :
    tool_executor_node parse invoke st = okRecUpdate st tool params r := by
  have htruthy := (isKnownTool_some _ _ htool).2
  have hdup : find_duplicate_result tool params st.tool_results = r := by
    unfold find_duplicate_result
    rw [hhist]
    simp only [List.reverse_append, List.reverse_cons, List.append_assoc,
      List.cons_append, List.nil_append]
    rw [findDupRev_skip tool (pynorm (.obj params)) post.reverse
      (.ok n tool psPrev r :: pre.reverse)
      (fun rec hrec => hpost rec (List.mem_reverse.mp hrec))]
    simp [findDupRev, hcanon]
  simp only [tool_executor_node, execCore, hjt, hsel, hp0]
  unfold execResolved
  rw [hpipe]
  cases r with
  | null => exact absurd rfl hr
  | bool b =>
    simp only [htruthy, Bool.not_true, Bool.false_eq_true, if_false, htool, hdup]
  | int n =>
    simp only [htruthy, Bool.not_true, Bool.false_eq_true, if_false, htool, hdup]
  | float q =>
    simp only [htruthy, Bool.not_true, Bool.false_eq_true, if_false, htool, hdup]
  | str s =>
    simp only [htruthy, Bool.not_true, Bool.false_eq_true, if_false, htool, hdup]
  | arr l =>
    simp only [htruthy, Bool.not_true, Bool.false_eq_true, if_false, htool, hdup]
  | obj kvs =>
    simp only [htruthy, Bool.not_true, Bool.false_eq_true, if_false, htool, hdup]

/-- Concrete selector text for the C8 witness run (a flat JSON object,
`parameters` null). -/
def c8analysis : String := "\x7b\"tool\": \"search_products\", \"parameters\": null\x7d"

/-- Concrete state for the C8 witness run: one prior successful search
with the same canonical parameters the repair layer will rebuild. -/
def c8state : AgentState :=
  { user_goal := "rating below 4 please"
    plan := ["step one"]
    current_step := 0
    tool_results := [.ok 1 "search_products" [("max_rating", .float 4)] (.str "R0")]
    intermediate_analysis := c8analysis
    final_answer := none
    iteration_count := 1
    needs_more_info := true }

/-- `json.loads` on the witness text. -/
def c8parse : String → Option PDict := fun s =>
  if s = c8analysis then
    some [("tool", .str "search_products"), ("parameters", .null)]
  else none

/-- Witness for C8: the duplicate call reuses the stored result "R0"
even though the tool itself would fail if invoked. -/
theorem C8_dedup_reuse_witness :
    tool_executor_node c8parse (fun _ _ => .error "nope") c8state =
      okRecUpdate c8state "search_products" [("max_rating", .float 4)]
        (.str "R0") := by
  exact C8_dedup_reuse c8parse (fun _ _ => .error "nope") c8state
    c8analysis.toList [("tool", .str "search_products"), ("parameters", .null)]
    [] [("max_rating", .float 4)] [("max_rating", .float 4)]
    "search_products" 1 (.str "R0") [] []
    rfl rfl rfl rfl rfl rfl rfl (by simp) (by decide)

/-! ## C4: what the repair layer infers from "find products under 2000
with rating below 4.0" -/

/-- The goal text of the C4 scenario. -/
def c4goal : String := "find products under 2000 with rating below 4.0"

/-- Selector text of the C4 scenario: the search tool with no
parameters. -/
def c4analysis : String := "\x7b\"tool\": \"search_products\"\x7d"

/-- `json.loads` on the C4 selector text. -/
def c4parse : String → Option PDict := fun s =>
  if s = c4analysis then some [("tool", .str "search_products")] else none

/-- The C4 scenario's state. -/
def c4state : AgentState :=
  { user_goal := c4goal
    plan := ["Search for products"]
    current_step := 0
    tool_results := []
    intermediate_analysis := c4analysis
    final_answer := none
    iteration_count := 1
    needs_more_info := true }

/-- Counterexample to C4 as stated: on this goal the repaired search
parameters are exactly `{"max_rating": 2.0}` — the rating regex's
leftmost match is "under 2000", a price phrase, so the rating bound is
2.0 rather than 4.0, and no price bound is inferred at all (the repair
layer has no price inference). -/
theorem C4_repair_cex :
    execCore c4parse (fun _ _ => .ok (.str "R")) c4state =
      .ok ("search_products", [("max_rating", .float 2)], .str "R") ∧
    dlookup [("max_rating", .float 2)] "min_price" = none ∧
    dlookup [("max_rating", .float 2)] "max_price" = none ∧
    dlookup [("max_rating", .float 2)] "max_rating" ≠ some (.float 4) := by
  refine ⟨rfl, rfl, rfl, ?_⟩
  decide

/-- C4, amended.  For every state whose goal is the scenario goal and
whose current step reads "Search for products", when the selector
chose `search_products` with empty parameters the repaired parameters
are exactly `{"max_rating": 2.0}`: a rating bound derived from the
goal's leftmost "under/below/less than N" phrase — which is the price
phrase "under 2000" — and no price bound, since the repair layer
infers none. -/
theorem C4_repair_amended (st : AgentState)
    (hgoal : st.user_goal = c4goal)
    (hstep : stepText st = "Search for products") :
    repairParams st (.str "search_products") [] =
      [("max_rating", .float 2)] := by
  simp only [repairParams, repairSearchParams, hgoal, hstep]
  rfl

/-- Witness for C4's amended theorem at the scenario state. -/
theorem C4_repair_amended_witness :
    repairParams c4state (.str "search_products") [] =
      [("max_rating", .float 2)] :=
  C4_repair_amended c4state rfl rfl

/-! ## C1: the step cursor across executor outcomes, and its bound -/

/-- When no brace region exists in the raw selector text, the executor
returns the parse-failure error update (which carries no step-cursor
key). -/
theorem executor_err_of_no_extract (parse : String → Option PDict)
    (invoke : String → PDict → Except String JValue) (st : AgentState)
    (h : extractFlatObj st.intermediate_analysis.toList = none) :
    tool_executor_node parse invoke st =
      errUpdate "Failed to parse tool selection" := by
  simp only [String.toList] at h
  simp [tool_executor_node, execCore, h]

/-- Every executor run returns either a one-record success update that
advances the cursor by exactly one, or a one-error-record update with
no cursor key. -/
theorem executor_step_dichotomy (parse : String → Option PDict)
    (invoke : String → PDict → Except String JValue) (st : AgentState) :
    ((tool_executor_node parse invoke st).current_step =
        some (st.current_step + 1) ∧
      ∃ tool params result, (tool_executor_node parse invoke st).tool_results =
        [.ok (st.current_step + 1) tool params result]) ∨
    ((tool_executor_node parse invoke st).current_step = none ∧
      ∃ msg, (tool_executor_node parse invoke st).tool_results = [.err msg]) := by
  unfold tool_executor_node
  cases h : execCore parse invoke st with
  | error m => exact Or.inr ⟨rfl, m, rfl⟩
  | ok x =>
    obtain ⟨tool, params, result⟩ := x
    exact Or.inl ⟨rfl, tool, params, result, rfl⟩

/-- The loop-back route implies the cursor is strictly inside the
plan. -/
theorem should_continue_selector_lt (maxIterations : Nat) (st : AgentState)
    (h : should_continue maxIterations st = .tool_selector) :
    st.current_step < st.plan.length := by
  unfold should_continue at h
  split_ifs at h
  all_goals simp_all

/-- The inductive invariant of the graph: the cursor is bounded by the
plan length; the planner only runs on the initial state; and on entry
to the selector or executor either the cursor is strictly inside the
plan or the stale selector text has no extractable JSON object. -/
def GInv (goal : String) (g : GState) : Prop :=
  g.st.current_step ≤ g.st.plan.length ∧
  (g.tag = .planner → g.st = initState goal) ∧
  ((g.tag = .tool_selector ∨ g.tag = .tool_executor) →
    (g.st.current_step < g.st.plan.length ∨
      extractFlatObj g.st.intermediate_analysis.toList = none))

/-- The invariant holds initially. -/
theorem GInv_init (goal : String) :
    GInv goal ⟨.planner, initState goal⟩ := by
  unfold GInv
  refine ⟨by simp [initState], fun _ => rfl, fun h => ?_⟩
  rcases h with h | h <;> cases h

/-- The invariant is preserved by every node execution. -/
theorem GInv_step (maxIterations : Nat) (goal : String) {g g' : GState}
    (hinv : GInv goal g) (hstep : GStep maxIterations g g') :
    GInv goal g' := by
  unfold GInv at hinv
  obtain ⟨h1, h2, h3⟩ := hinv
  unfold GInv
  cases hstep with
  | plan parse resp st =>
    have hst : st = initState goal := h2 rfl
    subst hst
    refine ⟨?_, ?_, ?_⟩
    · simp [applyUpdate, planner_node]
    · intro h; cases h
    · intro _
      exact Or.inr (by simp [applyUpdate, planner_node, noUpdate, initState,
        extractFlatObj])
  | select resp st =>
    have hsel := h3 (Or.inl rfl)
    by_cases hc : st.plan.length ≤ st.current_step
    · refine ⟨?_, ?_, ?_⟩
      · simpa [applyUpdate, tool_selector_node, noUpdate, hc] using h1
      · intro h; cases h
      · intro _
        simpa [applyUpdate, tool_selector_node, noUpdate, hc] using hsel
    · refine ⟨?_, ?_, ?_⟩
      · simpa [applyUpdate, tool_selector_node, noUpdate, hc] using h1
      · intro h; cases h
      · intro _
        refine Or.inl ?_
        simpa [applyUpdate, tool_selector_node, noUpdate, hc] using
          Nat.lt_of_not_le hc
  | exec parse invoke st =>
    refine ⟨?_, ?_, ?_⟩
    case refine_2 => intro h; cases h
    case refine_3 => intro h; rcases h with h | h <;> cases h
    have hexe := h3 (Or.inr rfl)
    have hplan : (tool_executor_node parse invoke st).plan = none := by
      unfold tool_executor_node
      cases h : execCore parse invoke st with
      | error m => rfl
      | ok x => obtain ⟨t, p, r⟩ := x; rfl
    rcases hexe with hlt | hnone
    · have hlt' : st.current_step < st.plan.length := hlt
      rcases executor_step_dichotomy parse invoke st with ⟨hstep', -⟩ | ⟨hstep', -⟩
      · simp only [applyUpdate, hstep', hplan]
        simp only [Option.getD_some, Option.getD_none]
        omega
      · simp only [applyUpdate, hstep', hplan]
        simpa using h1
    · rw [executor_err_of_no_extract parse invoke st hnone]
      simpa [applyUpdate, errUpdate, noUpdate] using h1
  | analyze st =>
    have hbound : (applyUpdate st (analyzer_node st)).current_step ≤
        (applyUpdate st (analyzer_node st)).plan.length := by
      unfold analyzer_node
      split_ifs <;> simpa [applyUpdate, noUpdate] using h1
    cases hr : should_continue maxIterations (applyUpdate st (analyzer_node st)) with
    | tool_selector =>
      refine ⟨?_, ?_, ?_⟩
      · simpa [hr] using hbound
      · intro h; simp [hr] at h
      · intro _
        refine Or.inl ?_
        have := should_continue_selector_lt maxIterations
          (applyUpdate st (analyzer_node st)) hr
        simpa [hr] using this
    | synthesizer =>
      refine ⟨?_, ?_, ?_⟩
      · simpa [hr] using hbound
      · intro h; simp [hr] at h
      · intro h; rcases h with h | h <;> simp [hr] at h
  | synth resp st =>
    refine ⟨?_, ?_, ?_⟩
    · simpa [applyUpdate, synthesizer_node, noUpdate] using h1
    · intro h; cases h
    · intro h; rcases h with h | h <;> cases h

/-- Every reachable configuration satisfies the invariant. -/
theorem reachable_GInv (maxIterations : Nat) (goal : String) (g : GState)
    (h : Reachable maxIterations goal g) : GInv goal g := by
  induction h with
  | init => exact GInv_init goal
  | step _ hstep ih => exact GInv_step maxIterations goal ih hstep

/-- Counterexample state for C1 as stated: a nonempty plan whose
selector text has no JSON object. -/
def c1state : AgentState :=
  { initState "g" with plan := ["s"], intermediate_analysis := "no tool json" }

/-- Counterexample to C1 as stated: a parse-failure invocation appends
an error record but leaves the step cursor unchanged — it is not
incremented by one. -/
theorem C1_step_cex :
    tool_executor_node (fun _ => none) (fun _ _ => .error "e") c1state =
      errUpdate "Failed to parse tool selection" ∧
    (applyUpdate c1state
        (tool_executor_node (fun _ => none) (fun _ _ => .error "e") c1state)
      ).current_step = c1state.current_step ∧
    c1state.current_step ≠ c1state.current_step + 1 := by
  refine ⟨rfl, rfl, ?_⟩
  decide

/-- C1, amended.  Every executor run appends exactly one history
record, and the step cursor advances by exactly one on the runs that
append a full (success or dedup-reuse) record, while error-record runs
leave it unchanged (their update carries no cursor key); and along
every reachable execution of the graph the cursor never exceeds the
plan's length. -/
theorem C1_step_cursor_amended :
    (∀ (parse : String → Option PDict)
      (invoke : String → PDict → Except String JValue) (st : AgentState),
      ((tool_executor_node parse invoke st).current_step =
          some (st.current_step + 1) ∧
        ∃ tool params result,
          (tool_executor_node parse invoke st).tool_results =
            [.ok (st.current_step + 1) tool params result]) ∨
      ((tool_executor_node parse invoke st).current_step = none ∧
        ∃ msg,
          (tool_executor_node parse invoke st).tool_results = [.err msg])) ∧
    (∀ (maxIterations : Nat) (goal : String) (g : GState),
      Reachable maxIterations goal g →
      g.st.current_step ≤ g.st.plan.length) :=
  ⟨executor_step_dichotomy,
    fun maxIterations goal g h => (reachable_GInv maxIterations goal g h).1⟩

/-- Witness for C1's amended theorem: the cursor bound at a concretely
reachable configuration (the initial one). -/
theorem C1_step_cursor_amended_witness :
    (initState "g").current_step ≤ (initState "g").plan.length :=
  C1_step_cursor_amended.2 3 "g" ⟨.planner, initState "g"⟩ Reachable.init

/-! ## C2: order-independence of `_norm`

The sort key of `_norm` is the Python string form of the normalized
value, and Python's `sorted` is stable.  Stability makes the sort of a
permuted list *depend on the input order* whenever two distinct
elements share a string form, so the claim needs those string forms
pairwise distinct; the lemmas below establish the amended claim and
the counterexample exhibits the collision `True` / `"True"`. -/

/-- `lexLt` is irreflexive. -/
theorem lexLt_irrefl : ∀ l : List Char, lexLt l l = false := by
  intro l
  induction l with
  | nil => rfl
  | cons c r ih => simp [lexLt, chLt, ih]

/-- Characters with equal code points are equal. -/
theorem chEqOfToNat (x y : Char) (h : x.toNat = y.toNat) : x = y := by
  have h2 : x.val.toNat = y.val.toNat := h
  exact Char.eq_of_val_eq (UInt32.ext h2)

/-- `lexLt` is transitive. -/
theorem lexLt_trans : ∀ a b c : List Char, lexLt a b = true →
    lexLt b c = true → lexLt a c = true := by
  intro a
  induction a with
  | nil =>
    intro b c hab hbc
    cases b with
    | nil => cases hab
    | cons y bs =>
      cases c with
      | nil => cases hbc
      | cons z cs => rfl
  | cons x as ih =>
    intro b c hab hbc
    cases b with
    | nil => cases hab
    | cons y bs =>
      cases c with
      | nil => cases hbc
      | cons z cs =>
        simp only [lexLt, chLt, decide_eq_true_eq] at hab hbc ⊢
        by_cases h1 : x.toNat < y.toNat <;> by_cases h2 : y.toNat < x.toNat <;>
          by_cases h3 : y.toNat < z.toNat <;> by_cases h4 : z.toNat < y.toNat <;>
          by_cases h5 : x.toNat < z.toNat <;> by_cases h6 : z.toNat < x.toNat <;>
          simp_all <;>
          first
            | omega
            | exact Or.inr (ih bs cs hab hbc)

/-- Lists that each fail to be below the other are equal (`lexLt` is
connex up to equality). -/
theorem lexLt_eq_of_not : ∀ a b : List Char, lexLt a b = false →
    lexLt b a = false → a = b := by
  intro a
  induction a with
  | nil =>
    intro b hab _
    cases b with
    | nil => rfl
    | cons y bs => cases hab
  | cons x as ih =>
    intro b hab hba
    cases b with
    | nil => cases hba
    | cons y bs =>
      simp only [lexLt, chLt, decide_eq_true_eq] at hab hba
      by_cases hxy : x.toNat < y.toNat
      · simp [hxy] at hab
      · by_cases hyx : y.toNat < x.toNat
        · simp [hyx] at hba
        · have hchar : x = y := chEqOfToNat x y (by omega)
          subst hchar
          simp only [if_neg hxy] at hab hba
          rw [ih bs (by simpa using hab) (by simpa using hba)]

/-- `lexLt` in one direction forbids the other. -/
theorem lexLt_asymm (a b : List Char) (h : lexLt a b = true) :
    lexLt b a = false := by
  cases hba : lexLt b a with
  | false => rfl
  | true =>
    have := lexLt_trans a b a h hba
    rw [lexLt_irrefl] at this
    cases this

/-- Strings are equal when their character lists are. -/
theorem stringExt (s t : String) (h : s.toList = t.toList) : s = t := by
  cases s
  cases t
  simp only [String.toList] at h
  rw [h]

/-- `strLeB` is total. -/
theorem strLeB_total (a b : String) :
    strLeB a b = true ∨ strLeB b a = true := by
  by_cases h : lexLt b.toList a.toList = true
  · right
    show (!lexLt a.toList b.toList) = true
    rw [lexLt_asymm _ _ h]
    rfl
  · left
    show (!lexLt b.toList a.toList) = true
    rw [Bool.eq_false_iff.mpr h]
    rfl

/-- `strLeB` is transitive. -/
theorem strLeB_trans (a b c : String) (hab : strLeB a b = true)
    (hbc : strLeB b c = true) : strLeB a c = true := by
  replace hab : lexLt b.toList a.toList = false := by
    have h : (!lexLt b.toList a.toList) = true := hab
    rw [Bool.not_eq_true'] at h
    exact h
  replace hbc : lexLt c.toList b.toList = false := by
    have h : (!lexLt c.toList b.toList) = true := hbc
    rw [Bool.not_eq_true'] at h
    exact h
  show (!lexLt c.toList a.toList) = true
  have hca : lexLt c.toList a.toList = false := by
    cases hca : lexLt c.toList a.toList with
    | false => rfl
    | true =>
      by_cases hbc' : lexLt b.toList c.toList = true
      · have := lexLt_trans b.toList c.toList a.toList hbc' hca
        rw [this] at hab
        cases hab
      · have heq := lexLt_eq_of_not b.toList c.toList
          (Bool.eq_false_iff.mpr hbc') hbc
        rw [← heq] at hca
        rw [hca] at hab
        cases hab
  rw [hca]
  rfl

/-- `strLeB` both ways means equal strings. -/
theorem strLeB_antisymm_eq (a b : String) (hab : strLeB a b = true)
    (hba : strLeB b a = true) : a = b := by
  replace hab : lexLt b.toList a.toList = false := by
    have h : (!lexLt b.toList a.toList) = true := hab
    rw [Bool.not_eq_true'] at h
    exact h
  replace hba : lexLt a.toList b.toList = false := by
    have h : (!lexLt a.toList b.toList) = true := hba
    rw [Bool.not_eq_true'] at h
    exact h
  exact stringExt a b (lexLt_eq_of_not a.toList b.toList hba hab)

/-- Two sorted permutations with pairwise distinct keys coincide. -/
theorem sorted_perm_nodup_eq {α : Type} (key : α → String) :
    ∀ (l₁ l₂ : List α), l₁.Perm l₂ →
      l₁.Sorted (fun x y => strLeB (key x) (key y) = true) →
      l₂.Sorted (fun x y => strLeB (key x) (key y) = true) →
      (l₁.map key).Nodup → l₁ = l₂ := by
  intro l₁
  induction l₁ with
  | nil =>
    intro l₂ hp _ _ _
    exact hp.nil_eq
  | cons a t₁ ih =>
    intro l₂ hp hs₁ hs₂ hnd
    cases l₂ with
    | nil => exact absurd (List.Perm.eq_nil hp) (by simp)
    | cons b t₂ =>
      have hba : b = a := by
        have hbmem : b ∈ a :: t₁ := hp.mem_iff.mpr (List.mem_cons_self b t₂)
        rcases List.mem_cons.mp hbmem with h | hbt
        · exact h
        · have hamem : a ∈ b :: t₂ := hp.mem_iff.mp (List.mem_cons_self a t₁)
          rcases List.mem_cons.mp hamem with h | hat
          · exact h.symm
          · have h₁ : strLeB (key a) (key b) = true :=
              (List.sorted_cons.mp hs₁).1 b hbt
            have h₂ : strLeB (key b) (key a) = true :=
              (List.sorted_cons.mp hs₂).1 a hat
            have hkey : key a = key b := strLeB_antisymm_eq _ _ h₁ h₂
            have hmemmap : key b ∈ t₁.map key := List.mem_map_of_mem key hbt
            rw [← hkey] at hmemmap
            exact absurd hmemmap (List.nodup_cons.mp (by simpa using hnd)).1
      subst hba
      have htp : t₁.Perm t₂ := hp.cons_inv
      rw [ih t₂ htp (List.sorted_cons.mp hs₁).2 (List.sorted_cons.mp hs₂).2
        (List.nodup_cons.mp (by simpa using hnd)).2]

/-- The element order `_norm` sorts by is total. -/
instance : IsTotal JValue jle := ⟨fun _ _ => strLeB_total _ _⟩

/-- The element order `_norm` sorts by is transitive. -/
instance : IsTrans JValue jle := ⟨fun _ _ _ => strLeB_trans _ _ _⟩

/-- The key order `_norm` sorts mappings by is total. -/
instance : IsTotal (String × JValue) kvle := ⟨fun _ _ => strLeB_total _ _⟩

/-- The key order `_norm` sorts mappings by is transitive. -/
instance : IsTrans (String × JValue) kvle := ⟨fun _ _ _ => strLeB_trans _ _ _⟩

/-- `pynormList` is the elementwise normalization. -/
theorem pynormList_eq_map : ∀ l : List JValue, pynormList l = l.map pynorm := by
  intro l
  induction l with
  | nil => rfl
  | cons v vs ih => simp [pynormList, ih]

/-- `pynormKVs` normalizes values and keeps keys. -/
theorem pynormKVs_eq_map : ∀ kvs : List (String × JValue),
    pynormKVs kvs = kvs.map fun p => (p.1, pynorm p.2) := by
  intro kvs
  induction kvs with
  | nil => rfl
  | cons p ps ih => obtain ⟨k, v⟩ := p; simp [pynormKVs, ih]

mutual
/-- "Differs only in mapping-key order or list-element order": the
recursive reordering equivalence of the claim. -/
inductive JEquiv : JValue → JValue → Prop where
  | null : JEquiv .null .null
  | bool (b : Bool) : JEquiv (.bool b) (.bool b)
  | int (n : Int) : JEquiv (.int n) (.int n)
  | float (q : Rat) : JEquiv (.float q) (.float q)
  | str (s : String) : JEquiv (.str s) (.str s)
  | arr (l₁ l' l₂ : List JValue) (hp : l₁.Perm l') (hf : JEquivList l' l₂) :
      JEquiv (.arr l₁) (.arr l₂)
  | obj (kvs₁ kvs' kvs₂ : List (String × JValue)) (hp : kvs₁.Perm kvs')
      (hf : JEquivKVs kvs' kvs₂) : JEquiv (.obj kvs₁) (.obj kvs₂)

inductive JEquivList : List JValue → List JValue → Prop where
  | nil : JEquivList [] []
  | cons {v w : JValue} {l m : List JValue} : JEquiv v w → JEquivList l m →
      JEquivList (v :: l) (w :: m)

inductive JEquivKVs :
    List (String × JValue) → List (String × JValue) → Prop where
  | nil : JEquivKVs [] []
  | cons {k : String} {v w : JValue} {l m : List (String × JValue)} :
      JEquiv v w → JEquivKVs l m → JEquivKVs ((k, v) :: l) ((k, w) :: m)
end

/-- Pairwise distinctness of a string list. -/
def strNodupB : List String → Bool
  | [] => true
  | s :: rest => !(rest.any fun t => t = s) && strNodupB rest

/-- `strNodupB` decides `Nodup`. -/
theorem strNodupB_iff_nodup : ∀ l : List String,
    strNodupB l = true ↔ l.Nodup := by
  intro l
  induction l with
  | nil => simp [strNodupB]
  | cons s rest ih =>
    simp only [strNodupB, Bool.and_eq_true, List.nodup_cons, ih,
      Bool.not_eq_true', List.any_eq_false, decide_eq_true_eq]
    constructor
    · rintro ⟨h1, h2⟩
      exact ⟨fun hmem => (h1 s hmem) rfl, h2⟩
    · rintro ⟨h1, h2⟩
      refine ⟨fun t hmem ht => ?_, h2⟩
      subst ht
      exact h1 hmem

mutual
/-- The mappings `_norm` canonicalizes deterministically: keys are
unique (Python dicts), and within every list the string forms of the
normalized elements are pairwise distinct (so the stable sort cannot
depend on input order). -/
def canonB : JValue → Bool
  | .null => true
  | .bool _ => true
  | .int _ => true
  | .float _ => true
  | .str _ => true
  | .arr l => canonListB l && strNodupB (l.map fun v => pyStr (pynorm v))
  | .obj kvs => canonKVB kvs && strNodupB (kvs.map Prod.fst)
termination_by structural v => v

def canonListB : List JValue → Bool
  | [] => true
  | v :: vs => canonB v && canonListB vs
termination_by structural l => l

def canonKVB : List (String × JValue) → Bool
  | [] => true
  | (_, v) :: ps => canonB v && canonKVB ps
termination_by structural l => l
end

/-- Members of a canonicalizable list are canonicalizable. -/
theorem canonListB_mem : ∀ (l : List JValue), canonListB l = true →
    ∀ v ∈ l, canonB v = true := by
  intro l
  induction l with
  | nil => intro _ v hv; cases hv
  | cons w ws ih =>
    intro h v hv
    rw [canonListB, Bool.and_eq_true] at h
    rcases List.mem_cons.mp hv with rfl | hv
    · exact h.1
    · exact ih h.2 v hv

/-- Values of a canonicalizable mapping are canonicalizable. -/
theorem canonKVB_mem : ∀ (kvs : List (String × JValue)),
    canonKVB kvs = true → ∀ p ∈ kvs, canonB p.2 = true := by
  intro kvs
  induction kvs with
  | nil => intro _ p hp; cases hp
  | cons q qs ih =>
    intro h p hp
    obtain ⟨k, v⟩ := q
    rw [canonKVB, Bool.and_eq_true] at h
    rcases List.mem_cons.mp hp with rfl | hp
    · exact h.1
    · exact ih h.2 p hp

/-- A list member is smaller than the array containing it. -/
theorem sizeOf_mem_arr {v : JValue} {l : List JValue} (h : v ∈ l) :
    sizeOf v < sizeOf (JValue.arr l) := by
  have := List.sizeOf_lt_of_mem h
  simp only [JValue.arr.sizeOf_spec]
  omega

/-- A mapping's value is smaller than the object containing it. -/
theorem sizeOf_mem_obj {k : String} {v : JValue}
    {kvs : List (String × JValue)} (h : (k, v) ∈ kvs) :
    sizeOf v < sizeOf (JValue.obj kvs) := by
  have h1 := List.sizeOf_lt_of_mem h
  have h2 : sizeOf (k, v) = 1 + sizeOf k + sizeOf v := rfl
  simp only [JValue.obj.sizeOf_spec]
  omega

/-- Every `JValue` has positive size. -/
theorem jvalue_sizeOf_pos (v : JValue) : 0 < sizeOf v := by
  cases v <;> simp_arith

/-- Bounded-recursion core of C2: reorder-equivalent canonicalizable
values normalize identically. -/
theorem pynorm_eq_of_equiv_bounded :
    ∀ (n : Nat) (v₁ v₂ : JValue), sizeOf v₁ ≤ n → canonB v₁ = true →
      canonB v₂ = true → JEquiv v₁ v₂ → pynorm v₁ = pynorm v₂ := by
  intro n
  induction n with
  | zero =>
    intro v₁ v₂ hsz _ _ _
    have := jvalue_sizeOf_pos v₁
    omega
  | succ n ih =>
    intro v₁ v₂ hsz hc1 hc2 heq
    cases heq with
    | null => rfl
    | bool b => rfl
    | int m => rfl
    | float q => rfl
    | str s => rfl
    | arr l₁ l' l₂ hp hf =>
      rw [canonB, Bool.and_eq_true] at hc1 hc2
      have hmem1 : ∀ v ∈ l₁, canonB v = true := canonListB_mem l₁ hc1.1
      have hmem2 : ∀ w ∈ l₂, canonB w = true := canonListB_mem l₂ hc2.1
      have haux : ∀ (la lb : List JValue), JEquivList la lb →
          (∀ v ∈ la, sizeOf v ≤ n ∧ canonB v = true) →
          (∀ w ∈ lb, canonB w = true) →
          pynormList la = pynormList lb := by
        intro la
        induction la with
        | nil =>
          intro lb hfl _ _
          cases hfl
          rfl
        | cons v lr ihl =>
          intro lb hfl hla hlb
          cases hfl with
          | cons hvw hrest =>
            rename_i w mr
            simp only [pynormList]
            have h1 := hla v (List.mem_cons_self v lr)
            rw [ih v w h1.1 h1.2 (hlb w (List.mem_cons_self w mr)) hvw,
              ihl mr hrest (fun x hx => hla x (List.mem_cons_of_mem v hx))
                (fun y hy => hlb y (List.mem_cons_of_mem w hy))]
      have hlist : pynormList l' = pynormList l₂ := by
        refine haux l' l₂ hf (fun v hv => ⟨?_, ?_⟩) (fun w hw => hmem2 w hw)
        · have hvmem : v ∈ l₁ := hp.mem_iff.mpr hv
          have := sizeOf_mem_arr hvmem
          omega
        · exact hmem1 v (hp.mem_iff.mpr hv)
      simp only [pynorm]
      congr 1
      have hpermA : (pynormList l₁).Perm (pynormList l') := by
        rw [pynormList_eq_map, pynormList_eq_map]
        exact hp.map pynorm
      have hAB : (pynormList l₁).Perm (pynormList l₂) := by
        rw [← hlist]
        exact hpermA
      have hperm : (List.insertionSort jle (pynormList l₁)).Perm
          (List.insertionSort jle (pynormList l₂)) :=
        ((List.perm_insertionSort jle _).trans hAB).trans
          (List.perm_insertionSort jle _).symm
      have hnodup :
          ((List.insertionSort jle (pynormList l₁)).map pyStr).Nodup := by
        have hnd : ((pynormList l₁).map pyStr).Nodup := by
          rw [pynormList_eq_map, List.map_map]
          exact (strNodupB_iff_nodup _).mp hc1.2
        exact ((List.perm_insertionSort jle (pynormList l₁)).map
          pyStr).nodup_iff.mpr hnd
      exact sorted_perm_nodup_eq pyStr _ _ hperm
        (List.sorted_insertionSort jle _) (List.sorted_insertionSort jle _)
        hnodup
    | obj kvs₁ kvs' kvs₂ hp hf =>
      rw [canonB, Bool.and_eq_true] at hc1 hc2
      have hmem1 : ∀ p ∈ kvs₁, canonB p.2 = true := canonKVB_mem kvs₁ hc1.1
      have hmem2 : ∀ q ∈ kvs₂, canonB q.2 = true := canonKVB_mem kvs₂ hc2.1
      have haux : ∀ (la lb : List (String × JValue)), JEquivKVs la lb →
          (∀ p ∈ la, sizeOf p.2 ≤ n ∧ canonB p.2 = true) →
          (∀ q ∈ lb, canonB q.2 = true) →
          pynormKVs la = pynormKVs lb := by
        intro la
        induction la with
        | nil =>
          intro lb hfl _ _
          cases hfl
          rfl
        | cons p lr ihl =>
          intro lb hfl hla hlb
          obtain ⟨k, v⟩ := p
          cases hfl with
          | cons hvw hrest =>
            rename_i w mr
            simp only [pynormKVs]
            have h1 := hla (k, v) (List.mem_cons_self _ _)
            rw [ih v w h1.1 h1.2 (hlb (k, w) (List.mem_cons_self _ _)) hvw,
              ihl mr hrest (fun x hx => hla x (List.mem_cons_of_mem _ hx))
                (fun y hy => hlb y (List.mem_cons_of_mem _ hy))]
      have hlist : pynormKVs kvs' = pynormKVs kvs₂ := by
        refine haux kvs' kvs₂ hf (fun p hp' => ⟨?_, ?_⟩)
          (fun q hq => hmem2 q hq)
        · obtain ⟨k, v⟩ := p
          have hvmem : (k, v) ∈ kvs₁ := hp.mem_iff.mpr hp'
          have := sizeOf_mem_obj hvmem
          show sizeOf v ≤ n
          omega
        · exact hmem1 p (hp.mem_iff.mpr hp')
      simp only [pynorm]
      congr 1
      have hpermA : (pynormKVs kvs₁).Perm (pynormKVs kvs') := by
        rw [pynormKVs_eq_map, pynormKVs_eq_map]
        exact hp.map _
      have hAB : (pynormKVs kvs₁).Perm (pynormKVs kvs₂) := by
        rw [← hlist]
        exact hpermA
      have hperm : (List.insertionSort kvle (pynormKVs kvs₁)).Perm
          (List.insertionSort kvle (pynormKVs kvs₂)) :=
        ((List.perm_insertionSort kvle _).trans hAB).trans
          (List.perm_insertionSort kvle _).symm
      have hnodup : ((List.insertionSort kvle
          (pynormKVs kvs₁)).map Prod.fst).Nodup := by
        have hnd : ((pynormKVs kvs₁).map Prod.fst).Nodup := by
          rw [pynormKVs_eq_map, List.map_map]
          exact (strNodupB_iff_nodup _).mp hc1.2
        exact ((List.perm_insertionSort kvle (pynormKVs kvs₁)).map
          Prod.fst).nodup_iff.mpr hnd
      exact sorted_perm_nodup_eq Prod.fst _ _ hperm
        (List.sorted_insertionSort kvle _) (List.sorted_insertionSort kvle _)
        hnodup

/-- Counterexample to C2 as stated: the mappings
`{"x": [true, "True"]}` and `{"x": ["True", true]}` differ only in
list-element order, yet `_norm` produces different canonical forms:
`str(True)` and `str("True")` are both `"True"`, so the stable sort
keeps each input's order, and `[True, "True"] == ["True", True]` is
false. -/
theorem C2_canonicalization_cex :
    JEquiv (.obj [("x", .arr [.bool true, .str "True"])])
      (.obj [("x", .arr [.str "True", .bool true])]) ∧
    pynorm (.obj [("x", .arr [.bool true, .str "True"])]) ≠
      pynorm (.obj [("x", .arr [.str "True", .bool true])]) := by
  constructor
  · refine JEquiv.obj _ [("x", .arr [.bool true, .str "True"])] _
      (List.Perm.refl _) ?_
    refine JEquivKVs.cons ?_ JEquivKVs.nil
    refine JEquiv.arr _ [.str "True", .bool true] _
      (List.Perm.swap (JValue.str "True") (JValue.bool true) []) ?_
    exact JEquivList.cons (JEquiv.str _)
      (JEquivList.cons (JEquiv.bool _) JEquivList.nil)
  · decide

/-- C2, amended.  For every pair of parameter mappings that differ
only in mapping-key order or list-element order, and in which mapping
keys are unique and the string forms of each list's normalized
elements are pairwise distinct, `_norm` produces equal canonical forms
(keys sorted, list values sorted by the string form of the normalized
elements).  Without the distinctness proviso the stable sort preserves
each input's relative order of string-form ties, and the claim fails
(see the counterexample). -/
theorem C2_canonicalization_amended (v₁ v₂ : JValue)
    (h1 : canonB v₁ = true) (h2 : canonB v₂ = true) (heq : JEquiv v₁ v₂) :
    pynorm v₁ = pynorm v₂ :=
  pynorm_eq_of_equiv_bounded (sizeOf v₁) v₁ v₂ le_rfl h1 h2 heq

/-- Witness for C2's amended theorem: reordering both the mapping keys
and a string list's elements leaves the canonical form unchanged. -/
theorem C2_canonicalization_amended_witness :
    pynorm (.obj [("b", .int 1), ("a", .arr [.str "x", .str "y"])]) =
      pynorm (.obj [("a", .arr [.str "y", .str "x"]), ("b", .int 1)]) := by
  refine C2_canonicalization_amended _ _ (by decide) (by decide) ?_
  refine JEquiv.obj _ [("a", .arr [.str "x", .str "y"]), ("b", .int 1)] _
    (List.Perm.swap (("a", JValue.arr [.str "x", .str "y"]) : String × JValue) ("b", JValue.int 1) []) ?_
  refine JEquivKVs.cons ?_ (JEquivKVs.cons (JEquiv.int 1) JEquivKVs.nil)
  refine JEquiv.arr _ [.str "y", .str "x"] _
    (List.Perm.swap (JValue.str "y") (JValue.str "x") []) ?_
  exact JEquivList.cons (JEquiv.str _)
    (JEquivList.cons (JEquiv.str _) JEquivList.nil)
